import Mathlib

/-!
Shallow embedding of the tiered session cache
(`mcp_server_ds`: `ttl_in_memory_data_manager.py`, `diskcache_data_manager.py`,
`hybrid_data_manager.py`) and verification of the frozen claims about it.

Modelling conventions:
* Python `time.time()` floats become `Nat` timestamps passed explicitly to
  every operation (`now`).
* Stored objects become `Value`, a byte payload with the type tag the spec
  describes (`tabular` for DataFrames, `generic` for every other object).
* `psutil` readings become an explicit `Env` record supplied per call.
* Python dicts / `OrderedDict`s / caches keyed by strings become association
  lists in insertion order; re-setting an existing key of a plain dict keeps
  its position (`alistSet`), while the cacheout session cache re-inserts at
  the back (`cacheSet`).
* Raising Python code is embedded with `Except`; caught exceptions are
  translated at the catch site exactly where the source catches them.
-/

set_option autoImplicit false

namespace MCPCache

/-- A stored item: a byte payload plus the type tag the cache distinguishes
(`tabular` = pandas DataFrame, `generic` = any other Python object). -/
inductive Value where
  | tabular (bytes : List Nat)
  | generic (bytes : List Nat)
deriving DecidableEq

/-- Byte encoding of the Python string literal "corrupted_data" that
`HybridDataManager._is_data_valid` rejects. -/
def corruptedMarkerBytes : List Nat :=
  [99, 111, 114, 114, 117, 112, 116, 101, 100, 95, 100, 97, 116, 97]

/-- The `generic` value representing the Python string "corrupted_data". -/
def corruptedValue : Value := .generic corruptedMarkerBytes

/-- Models `pickle.dumps(protocol=HIGHEST_PROTOCOL)`: a magic header, a tag
byte recording the object's type (pickle round-trips the type), then the
payload. -/
def pickleBytes : Value → List Nat
  | .tabular b => 128 :: 5 :: 0 :: b
  | .generic b => 128 :: 5 :: 1 :: b

/-- The parquet magic bytes "PAR1". -/
def parquetMagic : List Nat := [80, 65, 82, 49]

/-- `DiskCacheDataManager._serialize_data`: DataFrames go to parquet when
`use_parquet` is on, everything else is pickled. -/
def serializeData (useParquet : Bool) : Value → List Nat
  | .tabular b => if useParquet then parquetMagic ++ b else pickleBytes (.tabular b)
  | .generic b => pickleBytes (.generic b)

/-- Models `pickle.loads` on the bytes produced by `pickleBytes`; junk bytes
are kept as a raw object. -/
def unpickle (bytes : List Nat) : Value :=
  match bytes with
  | 128 :: 5 :: 0 :: b => .tabular b
  | 128 :: 5 :: 1 :: b => .generic b
  | b => .generic b

/-- `data_bytes.startswith(b"PAR1")`. -/
def startsWithPAR1 (bytes : List Nat) : Bool := parquetMagic.isPrefixOf bytes

/-- `DiskCacheDataManager._deserialize_data`. -/
def deserializeData (isDataframe : Bool) (bytes : List Nat) : Value :=
  if isDataframe then .tabular (bytes.drop 4) else unpickle bytes

/-- `HybridDataManager._is_data_valid`: DataFrames validate, the literal
string "corrupted_data" is rejected, any other (non-None) object passes. -/
def isDataValid : Value → Bool
  | .tabular _ => true
  | .generic b => decide (b ≠ corruptedMarkerBytes)

/-- `HybridDataManager._estimate_data_size`: length of the pickled object. -/
def estimateDataSize (v : Value) : Nat := (pickleBytes v).length

/-! ### Association-list helpers (Python dict / OrderedDict semantics) -/

section AList

variable {κ : Type} {α : Type} [DecidableEq κ]

/-- First value bound to `k`. -/
def alistGet (k : κ) : List (κ × α) → Option α
  | [] => none
  | (k', v) :: xs => if k' = k then some v else alistGet k xs

/-- Key membership. -/
def alistHas (k : κ) (l : List (κ × α)) : Bool := (alistGet k l).isSome

/-- Remove the binding of `k` (dict `del`). -/
def alistErase (k : κ) : List (κ × α) → List (κ × α)
  | [] => []
  | (k', v) :: xs => if k' = k then xs else (k', v) :: alistErase k xs

/-- Python dict assignment: update in place when the key exists (keeping its
position), append at the back otherwise. -/
def alistSet (k : κ) (v : α) : List (κ × α) → List (κ × α)
  | [] => [(k, v)]
  | (k', v') :: xs => if k' = k then (k, v) :: xs else (k', v') :: alistSet k v xs

end AList

/-! ### Memory tier: `TTLInMemoryDataManager` over a cacheout `Cache` -/

/-- Constructor arguments of `TTLInMemoryDataManager`. -/
structure MemConfig where
  ttlSeconds : Nat
  maxSessions : Nat
  maxItemsPerSession : Nat
deriving DecidableEq

/-- The per-session payload dict: `data` (OrderedDict in insertion order),
`created_at`, `last_access`. -/
structure MemPayload where
  data : List (String × Value)
  createdAt : Nat
  lastAccess : Nat
deriving DecidableEq

/-- A cacheout cache slot: the payload plus its expiry deadline
(`none` when the ttl is 0, i.e. no expiry). -/
structure MemEntry where
  payload : MemPayload
  expireAt : Option Nat
deriving DecidableEq

/-- The cacheout `Cache` keyed by session id, in insertion/re-set order. -/
structure MemState where
  sessions : List (String × MemEntry)
deriving DecidableEq

/-- cacheout `Cache.expired`: the deadline has passed. -/
def cacheExpired (now : Nat) (e : MemEntry) : Bool :=
  match e.expireAt with
  | some t => decide (t ≤ now)
  | none => false

/-- cacheout `Cache.get`: expired entries are deleted and read as absent;
a hit does not reorder the cache. -/
def cacheGet (now : Nat) (sid : String) (st : MemState) : Option MemPayload × MemState :=
  match alistGet sid st.sessions with
  | none => (none, st)
  | some e =>
    if cacheExpired now e then (none, ⟨alistErase sid st.sessions⟩)
    else (some e.payload, st)

/-- cacheout `Cache.evict`: pop the front entry while at/over `maxsize`. -/
def cacheEvict (maxSessions : Nat) : List (String × MemEntry) → List (String × MemEntry)
  | [] => []
  | x :: xs => if xs.length + 1 ≥ maxSessions then cacheEvict maxSessions xs else x :: xs

/-- cacheout `Cache.set`: evict when inserting a fresh key at capacity, then
delete + append, so every set moves the key to the back; the expiry deadline
is recorded only for a positive ttl. -/
def cacheSet (cfg : MemConfig) (now : Nat) (sid : String) (p : MemPayload)
    (st : MemState) : MemState :=
  let l := if alistHas sid st.sessions then st.sessions
           else cacheEvict cfg.maxSessions st.sessions
  ⟨alistErase sid l ++
    [(sid, ⟨p, if cfg.ttlSeconds > 0 then some (now + cfg.ttlSeconds) else none⟩)]⟩

/-- `TTLInMemoryDataManager._touch`: refresh `last_access` and re-set to
slide the TTL. -/
def memTouch (cfg : MemConfig) (now : Nat) (sid : String) (p : MemPayload)
    (st : MemState) : MemState :=
  cacheSet cfg now sid { p with lastAccess := now } st

/-- `TTLInMemoryDataManager._get_payload`. -/
def memGetPayload (cfg : MemConfig) (now : Nat) (sid : String) (st : MemState) :
    Option MemPayload × MemState :=
  match cacheGet now sid st with
  | (none, st') => (none, st')
  | (some p, st') => (some { p with lastAccess := now }, memTouch cfg now sid p st')

/-- `TTLInMemoryDataManager._ensure_payload`. -/
def memEnsurePayload (cfg : MemConfig) (now : Nat) (sid : String) (st : MemState) :
    MemPayload × MemState :=
  match cacheGet now sid st with
  | (some p, st') => ({ p with lastAccess := now }, memTouch cfg now sid p st')
  | (none, st') =>
    let p : MemPayload := ⟨[], now, now⟩
    ({ p with lastAccess := now }, memTouch cfg now sid p (cacheSet cfg now sid p st'))

/-- `TTLInMemoryDataManager._enforce_item_cap`: pop the oldest-inserted item
while over the per-session cap. -/
def enforceItemCap (maxItems : Nat) : List (String × Value) → List (String × Value)
  | [] => []
  | x :: xs => if xs.length + 1 > maxItems then enforceItemCap maxItems xs else x :: xs

/-- `TTLInMemoryDataManager.get_session_data`. -/
def memGetSessionData (cfg : MemConfig) (now : Nat) (sid : String) (st : MemState) :
    List (String × Value) × MemState :=
  let (p, st') := memEnsurePayload cfg now sid st
  (p.data, st')

/-- `TTLInMemoryDataManager.set_session_data`. -/
def memSetSessionData (cfg : MemConfig) (now : Nat) (sid : String)
    (data : List (String × Value)) (st : MemState) : MemState :=
  let (p, st') := memEnsurePayload cfg now sid st
  memTouch cfg now sid { p with data := enforceItemCap cfg.maxItemsPerSession data } st'

/-- `TTLInMemoryDataManager.get_dataframe`. -/
def memGetDataframe (cfg : MemConfig) (now : Nat) (sid name : String) (st : MemState) :
    Option Value × MemState :=
  match memGetPayload cfg now sid st with
  | (none, st') => (none, st')
  | (some p, st') => (alistGet name p.data, st')

/-- `TTLInMemoryDataManager.set_dataframe`: a re-written name is deleted
first so it re-inserts at the back, then the item cap is enforced. -/
def memSetDataframe (cfg : MemConfig) (now : Nat) (sid name : String) (v : Value)
    (st : MemState) : MemState :=
  let (p, st') := memEnsurePayload cfg now sid st
  let od := if alistHas name p.data then alistErase name p.data else p.data
  memTouch cfg now sid
    { p with data := enforceItemCap cfg.maxItemsPerSession (od ++ [(name, v)]) } st'

/-- `TTLInMemoryDataManager.has_session`: confirming existence also
touches (slides the TTL of) the session. -/
def memHasSession (cfg : MemConfig) (now : Nat) (sid : String) (st : MemState) :
    Bool × MemState :=
  match cacheGet now sid st with
  | (none, st') => (false, st')
  | (some p, st') => (true, memTouch cfg now sid p st')

/-- `TTLInMemoryDataManager.remove_session`. -/
def memRemoveSession (sid : String) (st : MemState) : MemState :=
  ⟨alistErase sid st.sessions⟩

/-- `TTLInMemoryDataManager.get_dataframe_size`: pickled length of the item. -/
def memGetDataframeSize (cfg : MemConfig) (now : Nat) (sid name : String)
    (st : MemState) : Nat × MemState :=
  match memGetPayload cfg now sid st with
  | (none, st') => (0, st')
  | (some p, st') =>
    match alistGet name p.data with
    | none => (0, st')
    | some v => ((pickleBytes v).length, st')

/-- `TTLInMemoryDataManager.get_session_size`. -/
def memGetSessionSize (cfg : MemConfig) (now : Nat) (sid : String) (st : MemState) :
    Nat × MemState :=
  match memGetPayload cfg now sid st with
  | (none, st') => (0, st')
  | (some p, st') => ((p.data.map (fun it => (pickleBytes it.2).length)).sum, st')

/-- `TTLInMemoryDataManager.can_fit_in_memory`: a pure heuristic on the
process-wide memory percentage, with a hard-coded 90 threshold; the session
id and the additional size are ignored. -/
def memCanFit (memPercent : Nat) (_sid : String) (_additionalSize : Nat) : Bool :=
  decide (memPercent < 90)

/-- Stable insertion into a list sorted ascending by the second component
(Python `list.sort(key=...)` is stable). -/
def sortInsertByTime (x : String × Nat) : List (String × Nat) → List (String × Nat)
  | [] => [x]
  | y :: ys => if x.2 ≤ y.2 then x :: y :: ys else y :: sortInsertByTime x ys

/-- Stable sort ascending by the second component. -/
def stableSortByTime : List (String × Nat) → List (String × Nat)
  | [] => []
  | x :: xs => sortInsertByTime x (stableSortByTime xs)

/-- The loop of `get_oldest_sessions`: `_get_payload` every snapshotted key
(touching live sessions, dropping expired ones) and collect the resulting
`last_access` values. -/
def memOldestLoop (cfg : MemConfig) (now : Nat) :
    List String → MemState → List (String × Nat) × MemState
  | [], st => ([], st)
  | sid :: rest, st =>
    match memGetPayload cfg now sid st with
    | (none, st') => memOldestLoop cfg now rest st'
    | (some p, st') =>
      let (acc, st'') := memOldestLoop cfg now rest st'
      ((sid, p.lastAccess) :: acc, st'')

/-- `TTLInMemoryDataManager.get_oldest_sessions`. -/
def memGetOldestSessions (cfg : MemConfig) (now : Nat) (limit : Nat) (st : MemState) :
    List (String × Nat) × MemState :=
  let (l, st') := memOldestLoop cfg now (st.sessions.map Prod.fst) st
  ((stableSortByTime l).take limit, st')

/-! ### Disk tier: `DiskCacheDataManager` over two diskcache stores -/

/-- Constructor arguments of `DiskCacheDataManager`. -/
structure DiskConfig where
  ttlSeconds : Nat
  maxDiskUsagePercent : Nat
  useParquet : Bool
deriving DecidableEq

/-- `SessionMetadata` as persisted in the metadata cache. -/
structure SessionMetadata where
  sessionId : String
  createdAt : Nat
  lastAccess : Nat
  totalSizeBytes : Nat
  itemCount : Nat
  itemSizes : List (String × Nat)
deriving DecidableEq

/-- A persisted metadata record, which may be undecodable (corrupted or an
incompatible encoding); reading a corrupt record raises.  `deleteFails`
injects a record whose best-effort deletion also fails. -/
inductive MetaRecord where
  | ok (m : SessionMetadata)
  | corrupt (deleteFails : Bool)
deriving DecidableEq

/-- A payload blob in the data cache, with its diskcache expiry deadline. -/
structure DiskEntry where
  bytes : List Nat
  expireAt : Nat
deriving DecidableEq

/-- The two diskcache stores: blobs keyed by (session id, item name)
— modelling the "data:sid:name" keys — and metadata keyed by session id
— modelling the "metadata:sid" keys — in insertion order. -/
structure DiskState where
  data : List ((String × String) × DiskEntry)
  meta : List (String × MetaRecord)
deriving DecidableEq

/-- diskcache membership / reads honour the expiry deadline: an entry is
live while `now < expireAt`. -/
def diskEntryLive (now : Nat) (e : DiskEntry) : Bool := decide (now < e.expireAt)

/-- Is the metadata record for `sid` present but undecodable? -/
def metaCorrupt (sid : String) (st : DiskState) : Bool :=
  match alistGet sid st.meta with
  | some (.corrupt _) => true
  | _ => false

/-- `DiskCacheDataManager._update_session_metadata`.  Reading an
undecodable existing record raises (`.error`). -/
def diskUpdateMeta (now : Nat) (sid name : String) (dataSize : Nat)
    (st : DiskState) : Except Unit DiskState :=
  match alistGet sid st.meta with
  | some (.corrupt _) => .error ()
  | some (.ok m) =>
    let sizes := alistSet name dataSize m.itemSizes
    let m' : SessionMetadata :=
      ⟨m.sessionId, m.createdAt, now, (sizes.map Prod.snd).sum, sizes.length, sizes⟩
    .ok { st with meta := alistSet sid (.ok m') st.meta }
  | none =>
    let sizes := alistSet name dataSize ([] : List (String × Nat))
    let m' : SessionMetadata :=
      ⟨sid, now, now, (sizes.map Prod.snd).sum, sizes.length, sizes⟩
    .ok { st with meta := alistSet sid (.ok m') st.meta }

/-- `DiskCacheDataManager.set_dataframe`: store the serialized blob with a
fresh TTL, then update the session metadata. -/
def diskSetDataframe (cfg : DiskConfig) (now : Nat) (sid name : String) (v : Value)
    (st : DiskState) : Except Unit DiskState :=
  let bytes := serializeData cfg.useParquet v
  let st' := { st with data := alistSet (sid, name) ⟨bytes, now + cfg.ttlSeconds⟩ st.data }
  diskUpdateMeta now sid name bytes.length st'

/-- `DiskCacheDataManager.set_session_data`: set every item in turn. -/
def diskSetSessionData (cfg : DiskConfig) (now : Nat) (sid : String) :
    List (String × Value) → DiskState → Except Unit DiskState
  | [], st => .ok st
  | (name, v) :: rest, st =>
    match diskSetDataframe cfg now sid name v st with
    | .error e => .error e
    | .ok st' => diskSetSessionData cfg now sid rest st'

/-- `DiskCacheDataManager.get_dataframe`: on a live blob, deserialize
(parquet if the magic bytes match), slide the blob's TTL, and refresh the
metadata. -/
def diskGetDataframe (cfg : DiskConfig) (now : Nat) (sid name : String)
    (st : DiskState) : Except Unit (Option Value × DiskState) :=
  match alistGet (sid, name) st.data with
  | none => .ok (none, st)
  | some e =>
    if diskEntryLive now e then
      let v := deserializeData (cfg.useParquet && startsWithPAR1 e.bytes) e.bytes
      let e' : DiskEntry := ⟨e.bytes, now + cfg.ttlSeconds⟩
      let st₁ := { st with data := alistSet (sid, name) e' st.data }
      match diskUpdateMeta now sid name e.bytes.length st₁ with
      | .error e => .error e
      | .ok st₂ => .ok (some v, st₂)
    else .ok (none, st)

/-- The loop of `DiskCacheDataManager.get_session_data` over the item names
listed in the session's metadata (skipping blobs no longer live). -/
def diskSessionDataLoop (cfg : DiskConfig) (now : Nat) (sid : String) :
    List String → DiskState → Except Unit (List (String × Value) × DiskState)
  | [], st => .ok ([], st)
  | name :: rest, st =>
    match alistGet (sid, name) st.data with
    | some e =>
      if diskEntryLive now e then
        let v := deserializeData (cfg.useParquet && startsWithPAR1 e.bytes) e.bytes
        let e' : DiskEntry := ⟨e.bytes, now + cfg.ttlSeconds⟩
        let st₁ := { st with data := alistSet (sid, name) e' st.data }
        match diskUpdateMeta now sid name e.bytes.length st₁ with
        | .error e => .error e
        | .ok st₂ =>
          match diskSessionDataLoop cfg now sid rest st₂ with
          | .error e => .error e
          | .ok (acc, st₃) => .ok ((name, v) :: acc, st₃)
      else diskSessionDataLoop cfg now sid rest st
    | none => diskSessionDataLoop cfg now sid rest st

/-- `DiskCacheDataManager.get_session_data`: reading an undecodable
metadata record raises; an absent record yields the empty dict. -/
def diskGetSessionData (cfg : DiskConfig) (now : Nat) (sid : String)
    (st : DiskState) : Except Unit (List (String × Value) × DiskState) :=
  match alistGet sid st.meta with
  | none => .ok ([], st)
  | some (.corrupt _) => .error ()
  | some (.ok m) => diskSessionDataLoop cfg now sid (m.itemSizes.map Prod.fst) st

/-- `DiskCacheDataManager.has_session`: metadata-key membership only, which
does not decode the record (a corrupt record still counts) and never
expires (the metadata cache is written without a TTL). -/
def diskHasSession (sid : String) (st : DiskState) : Bool :=
  alistHas sid st.meta

/-- `DiskCacheDataManager.remove_session`: delete every blob named by the
metadata, then the metadata record itself; reading an undecodable record
raises. -/
def diskRemoveSession (now : Nat) (sid : String) (st : DiskState) :
    Except Unit DiskState :=
  match alistGet sid st.meta with
  | none => .ok st
  | some (.corrupt _) => .error ()
  | some (.ok m) =>
    let data' := m.itemSizes.foldl (fun (d : List ((String × String) × DiskEntry)) it =>
      match alistGet (sid, it.1) d with
      | some e => if diskEntryLive now e then alistErase (sid, it.1) d else d
      | none => d) st.data
    .ok { data := data', meta := alistErase sid st.meta }

/-- `DiskCacheDataManager.get_dataframe_size` (from metadata). -/
def diskGetDataframeSize (sid name : String) (st : DiskState) : Except Unit Nat :=
  match alistGet sid st.meta with
  | none => .ok 0
  | some (.corrupt _) => .error ()
  | some (.ok m) => .ok ((alistGet name m.itemSizes).getD 0)

/-- `DiskCacheDataManager.get_session_size` (from metadata). -/
def diskGetSessionSize (sid : String) (st : DiskState) : Except Unit Nat :=
  match alistGet sid st.meta with
  | none => .ok 0
  | some (.corrupt _) => .error ()
  | some (.ok m) => .ok m.totalSizeBytes

/-- `DiskCacheDataManager.get_all_session_ids`: collect ids of decodable
records; an undecodable record is self-healed by best-effort deletion and
skipped. -/
def diskAllIdsLoop : List (String × MetaRecord) → DiskState → List String × DiskState
  | [], st => ([], st)
  | (sid, .ok _) :: rest, st =>
    let (ids, st') := diskAllIdsLoop rest st
    (sid :: ids, st')
  | (_, .corrupt true) :: rest, st => diskAllIdsLoop rest st
  | (sid, .corrupt false) :: rest, st =>
    diskAllIdsLoop rest { st with meta := alistErase sid st.meta }

/-- `DiskCacheDataManager.get_all_session_ids`. -/
def diskGetAllSessionIds (st : DiskState) : List String × DiskState :=
  diskAllIdsLoop st.meta st

/-- Aggregate statistics (`StorageStats` restricted to the fields the
claims mention). -/
structure StorageStats where
  totalSessions : Nat
  totalItems : Nat
  totalSizeBytes : Nat
deriving DecidableEq

/-- The loop of `DiskCacheDataManager.get_storage_stats`: every metadata
key counts as a session (the increment precedes the decode), items and
bytes accumulate only from decodable records, and an undecodable record is
self-healed by best-effort deletion. -/
def diskStatsLoop : List (String × MetaRecord) → DiskState → StorageStats × DiskState
  | [], st => (⟨0, 0, 0⟩, st)
  | (_, .ok m) :: rest, st =>
    let (s, st') := diskStatsLoop rest st
    (⟨s.totalSessions + 1, s.totalItems + m.itemSizes.length,
      s.totalSizeBytes + m.totalSizeBytes⟩, st')
  | (_, .corrupt true) :: rest, st =>
    let (s, st') := diskStatsLoop rest st
    (⟨s.totalSessions + 1, s.totalItems, s.totalSizeBytes⟩, st')
  | (sid, .corrupt false) :: rest, st =>
    let (s, st') := diskStatsLoop rest { st with meta := alistErase sid st.meta }
    (⟨s.totalSessions + 1, s.totalItems, s.totalSizeBytes⟩, st')

/-- `DiskCacheDataManager.get_storage_stats`. -/
def diskGetStorageStats (st : DiskState) : StorageStats × DiskState :=
  diskStatsLoop st.meta st

/-- `DiskCacheDataManager.get_oldest_sessions`: decodes every metadata
record with no exception handling, so one undecodable record raises; live
records are sorted ascending by `last_access`. -/
def diskOldestLoop : List (String × MetaRecord) → Except Unit (List (String × Nat))
  | [] => .ok []
  | (_, .corrupt _) :: _ => .error ()
  | (sid, .ok m) :: rest =>
    match diskOldestLoop rest with
    | .error e => .error e
    | .ok acc => .ok ((sid, m.lastAccess) :: acc)

/-- `DiskCacheDataManager.get_oldest_sessions`. -/
def diskGetOldestSessions (limit : Nat) (st : DiskState) :
    Except Unit (List (String × Nat)) :=
  match diskOldestLoop st.meta with
  | .error e => .error e
  | .ok l => .ok ((stableSortByTime l).take limit)

/-- `DiskCacheDataManager.can_fit_in_memory`: room on disk, computed from
the disk-usage percentage only (the requested size is ignored). -/
def diskCanFit (cfg : DiskConfig) (diskPercent : Nat) (_sid : String)
    (_additionalSize : Nat) : Bool :=
  decide (diskPercent < cfg.maxDiskUsagePercent)

/-! ### Coordinator: `HybridDataManager` -/

/-- Constructor arguments of `HybridDataManager` (threaded to the tiers). -/
structure HybridConfig where
  memCfg : MemConfig
  diskCfg : DiskConfig
  memoryThresholdPercent : Nat
deriving DecidableEq

/-- The `psutil` readings an operation observes (process-wide memory and
disk usage percentages), held constant for the duration of one call. -/
structure Env where
  memPercent : Nat
  diskPercent : Nat
deriving DecidableEq

/-- Injected tier failures: `memSet`/`diskSet` make the named tier's write
raise (carrying the failure cause), `memRead`/`diskRead` make the named
tier's read accessors raise. -/
structure Faults where
  memSet : Option String
  diskSet : Option String
  memRead : Bool
  diskRead : Bool
deriving DecidableEq

/-- No injected failures. -/
def noFaults : Faults := ⟨none, none, false, false⟩

/-- Coordinator state: the two tiers plus the transient per-session
"loading" markers. -/
structure HybridState where
  mem : MemState
  disk : DiskState
  loading : List String
deriving DecidableEq

/-- The raised-to-caller error: both tiers failed a write, naming both
underlying causes (`RuntimeError(f"Both memory and filesystem writes
failed: memory=..., filesystem=...")`). -/
inductive HybridError where
  | bothFailed (memCause diskCause : String)
deriving DecidableEq

/-- `HybridDataManager._check_memory_pressure`. -/
def hybridCheckMemoryPressure (cfg : HybridConfig) (env : Env) : Bool :=
  decide (env.memPercent ≥ cfg.memoryThresholdPercent)

/-- The loop of `_relieve_memory_pressure` over the oldest-session
candidates: skip sessions marked loading, otherwise evict the whole session
accumulating freed bytes, stopping once the byte target is met or memory
pressure has cleared. -/
def hybridRelieveLoop (cfg : HybridConfig) (env : Env) (now : Nat)
    (requiredSize : Nat) :
    List (String × Nat) → Nat → HybridState → HybridState
  | [], _, st => st
  | (sid, _) :: rest, freed, st =>
    if sid ∈ st.loading then hybridRelieveLoop cfg env now requiredSize rest freed st
    else
      let (ssize, mem₁) := memGetSessionSize cfg.memCfg now sid st.mem
      let st' := { st with mem := memRemoveSession sid mem₁ }
      let freed' := freed + ssize
      if requiredSize > 0 ∧ freed' ≥ requiredSize then st'
      else if ¬ hybridCheckMemoryPressure cfg env then st'
      else hybridRelieveLoop cfg env now requiredSize rest freed' st'

/-- `HybridDataManager._relieve_memory_pressure`: fetch (at most 20) oldest
memory-resident sessions, then evict from the head of that ordering. -/
def hybridRelieve (cfg : HybridConfig) (env : Env) (now : Nat)
    (requiredSize : Nat) (st : HybridState) : HybridState :=
  let (oldest, mem') := memGetOldestSessions cfg.memCfg now 20 st.mem
  hybridRelieveLoop cfg env now requiredSize oldest 0 { st with mem := mem' }

/-- Outcome of `_load_session_from_disk`: returned True, returned False, or
raised out of the method (the callers catch). -/
inductive LoadResult where
  | loaded
  | notLoaded
  | raised
deriving DecidableEq

/-- The `try` body of `_load_session_from_disk`: read the whole session
from disk and, when non-empty, copy it into the memory tier; a raise inside
is caught by the method's own handler, yielding False. -/
def hybridLoadBody (cfg : HybridConfig) (now : Nat) (sid : String)
    (st : HybridState) : LoadResult × HybridState :=
  match diskGetSessionData cfg.diskCfg now sid st.disk with
  | .error _ => (.notLoaded, st)
  | .ok (sdata, disk') =>
    if sdata = [] then (.notLoaded, { st with disk := disk' })
    else
      (.loaded, { st with
        disk := disk'
        mem := memSetSessionData cfg.memCfg now sid sdata st.mem })

/-- `HybridDataManager._load_session_from_disk`. -/
def hybridLoad (cfg : HybridConfig) (env : Env) (fl : Faults) (now : Nat)
    (sid : String) (st : HybridState) : LoadResult × HybridState :=
  if sid ∈ st.loading then (.notLoaded, st)
  else if fl.diskRead then (.raised, st)
  else if ¬ diskHasSession sid st.disk then (.notLoaded, st)
  else if fl.memRead then (.raised, st)
  else
    match memHasSession cfg.memCfg now sid st.mem with
    | (true, mem') => (.loaded, { st with mem := mem' })
    | (false, mem') =>
      let st₁ := { st with mem := mem' }
      match diskGetSessionSize sid st₁.disk with
      | .error _ => (.raised, st₁)
      | .ok ssize =>
        if memCanFit env.memPercent sid ssize then hybridLoadBody cfg now sid st₁
        else
          let st₂ := hybridRelieve cfg env now ssize st₁
          if memCanFit env.memPercent sid ssize then hybridLoadBody cfg now sid st₂
          else (.notLoaded, st₂)

/-- The memory-first branch of `HybridDataManager.get_dataframe` (its first
`try` block): a `some` result is returned to the caller, `none` falls
through to the lazy-load / disk path. -/
def hybridGetMemBranch (cfg : HybridConfig) (fl : Faults) (now : Nat)
    (sid name : String) (st : HybridState) : Option Value × HybridState :=
  if fl.memRead then (none, st)
  else
    match memHasSession cfg.memCfg now sid st.mem with
    | (false, mem') => (none, { st with mem := mem' })
    | (true, mem') =>
      match memGetDataframe cfg.memCfg now sid name mem' with
      | (none, mem'') => (none, { st with mem := mem'' })
      | (some v, mem'') =>
        if isDataValid v then (some v, { st with mem := mem'' })
        else (none, { st with mem := memRemoveSession sid mem'' })

/-- The final `try` block of `HybridDataManager.get_dataframe`: direct disk
access, with any failure mapped to an absent result. -/
def hybridDiskFallback (cfg : HybridConfig) (fl : Faults) (now : Nat)
    (sid name : String) (st : HybridState) : Option Value × HybridState :=
  if fl.diskRead then (none, st)
  else
    match diskGetDataframe cfg.diskCfg now sid name st.disk with
    | .ok (v, disk') => (v, { st with disk := disk' })
    | .error _ => (none, st)

/-- `HybridDataManager.get_dataframe`: memory first (with integrity
validation), then whole-session lazy load, then direct disk access; every
failure is caught, so the caller always receives a plain optional value. -/
def hybridGetDataframe (cfg : HybridConfig) (env : Env) (fl : Faults) (now : Nat)
    (sid name : String) (st : HybridState) : Option Value × HybridState :=
  match hybridGetMemBranch cfg fl now sid name st with
  | (some v, st₁) => (some v, st₁)
  | (none, st₁) =>
    match hybridLoad cfg env fl now sid st₁ with
    | (.loaded, st₂) =>
      if fl.memRead then hybridDiskFallback cfg fl now sid name st₂
      else
        let (v, mem') := memGetDataframe cfg.memCfg now sid name st₂.mem
        (v, { st₂ with mem := mem' })
    | (.notLoaded, st₂) => hybridDiskFallback cfg fl now sid name st₂
    | (.raised, st₂) => hybridDiskFallback cfg fl now sid name st₂

/-- `HybridDataManager.set_dataframe`: pressure-relieve if the estimate
does not fit, then write to both tiers independently, raising only when
both writes failed (and then naming both causes). -/
def hybridSetDataframe (cfg : HybridConfig) (env : Env) (fl : Faults) (now : Nat)
    (sid name : String) (v : Value) (st : HybridState) :
    Except HybridError HybridState :=
  let dsize := estimateDataSize v
  let st₀ := if memCanFit env.memPercent sid dsize then st
             else hybridRelieve cfg env now dsize st
  let memRes : Option String × HybridState :=
    match fl.memSet with
    | some c => (some c, st₀)
    | none => (none, { st₀ with mem := memSetDataframe cfg.memCfg now sid name v st₀.mem })
  let diskRes : Option String × HybridState :=
    match fl.diskSet with
    | some c => (some c, memRes.2)
    | none =>
      match diskSetDataframe cfg.diskCfg now sid name v memRes.2.disk with
      | .ok disk' => (none, { memRes.2 with disk := disk' })
      | .error _ => (some "corrupted metadata record", memRes.2)
  match memRes.1, diskRes.1 with
  | some mc, some dc => .error (.bothFailed mc dc)
  | _, _ => .ok diskRes.2

/-- `HybridDataManager.set_session_data`: write-through to both tiers with
the same combined-failure policy (no size estimate / pressure step here). -/
def hybridSetSessionData (cfg : HybridConfig) (fl : Faults) (now : Nat)
    (sid : String) (data : List (String × Value)) (st : HybridState) :
    Except HybridError HybridState :=
  let memRes : Option String × HybridState :=
    match fl.memSet with
    | some c => (some c, st)
    | none => (none, { st with mem := memSetSessionData cfg.memCfg now sid data st.mem })
  let diskRes : Option String × HybridState :=
    match fl.diskSet with
    | some c => (some c, memRes.2)
    | none =>
      match diskSetSessionData cfg.diskCfg now sid data memRes.2.disk with
      | .ok disk' => (none, { memRes.2 with disk := disk' })
      | .error _ => (some "corrupted metadata record", memRes.2)
  match memRes.1, diskRes.1 with
  | some mc, some dc => .error (.bothFailed mc dc)
  | _, _ => .ok diskRes.2

/-- `HybridDataManager.get_session_data`: memory first, then lazy load,
then direct disk access; this method catches nothing, so a tier raise
propagates. -/
def hybridGetSessionData (cfg : HybridConfig) (env : Env) (fl : Faults) (now : Nat)
    (sid : String) (st : HybridState) :
    Except Unit (List (String × Value) × HybridState) :=
  if fl.memRead then .error ()
  else
    match memHasSession cfg.memCfg now sid st.mem with
    | (true, mem') =>
      let st₁ := { st with mem := mem' }
      let (d, mem'') := memGetSessionData cfg.memCfg now sid st₁.mem
      .ok (d, { st₁ with mem := mem'' })
    | (false, mem') =>
      let st₁ := { st with mem := mem' }
      match hybridLoad cfg env fl now sid st₁ with
      | (.raised, _) => .error ()
      | (.loaded, st₂) =>
        let (d, mem'') := memGetSessionData cfg.memCfg now sid st₂.mem
        .ok (d, { st₂ with mem := mem'' })
      | (.notLoaded, st₂) =>
        if fl.diskRead then .error ()
        else
          match diskGetSessionData cfg.diskCfg now sid st₂.disk with
          | .error e => .error e
          | .ok (d, disk') => .ok (d, { st₂ with disk := disk' })

/-- `HybridDataManager.has_session`: resident in memory or present on disk
(short-circuiting Python `or`). -/
def hybridHasSession (cfg : HybridConfig) (now : Nat) (sid : String)
    (st : HybridState) : Bool × HybridState :=
  match memHasSession cfg.memCfg now sid st.mem with
  | (true, mem') => (true, { st with mem := mem' })
  | (false, mem') => (diskHasSession sid st.disk, { st with mem := mem' })

/-- `HybridDataManager.remove_session`: remove from both tiers. -/
def hybridRemoveSession (now : Nat) (sid : String)
    (st : HybridState) : Except Unit HybridState :=
  let mem' := memRemoveSession sid st.mem
  match diskRemoveSession now sid st.disk with
  | .error e => .error e
  | .ok disk' => .ok { st with mem := mem', disk := disk' }

/-! ### Derived observations used to state the claims -/

/-- The item dict of a session as the memory tier currently stores it
(`none` when no cache slot exists at all, expired or not). -/
def memSessionItems (sid : String) (st : MemState) : Option (List (String × Value)) :=
  (alistGet sid st.sessions).map (fun e => e.payload.data)

/-- The expiry deadline the memory tier currently records for a session. -/
def memExpireOf (sid : String) (st : MemState) : Option (Option Nat) :=
  (alistGet sid st.sessions).map (fun e => e.expireAt)

/-- Does the memory tier hold a value for `(sid, name)` right now (a live
session slot whose dict binds `name`)?  This is what "the memory tier
produces a value" means on the read path. -/
def memItemLookup (now : Nat) (sid name : String) (st : MemState) : Option Value :=
  match alistGet sid st.sessions with
  | none => none
  | some e => if cacheExpired now e then none else alistGet name e.payload.data

/-- Does the disk tier hold a value for `(sid, name)` right now (a live
blob under the data key)? -/
def diskItemLookup (cfg : DiskConfig) (now : Nat) (sid name : String)
    (st : DiskState) : Option Value :=
  match alistGet (sid, name) st.data with
  | none => none
  | some e =>
    if diskEntryLive now e then
      some (deserializeData (cfg.useParquet && startsWithPAR1 e.bytes) e.bytes)
    else none

/-- The item names the disk tier's metadata lists for a session. -/
def diskMetaItemNames (sid : String) (st : DiskState) : List String :=
  match alistGet sid st.meta with
  | some (.ok m) => m.itemSizes.map Prod.fst
  | _ => []

/-- Well-formed memory tier: session keys are distinct (a Python dict can
never hold a key twice). -/
def MemWF (st : MemState) : Prop := (st.sessions.map Prod.fst).Nodup

/-- Well-formed disk metadata index: session keys are distinct. -/
def DiskWF (st : DiskState) : Prop := (st.meta.map Prod.fst).Nodup

/-- Memory tier sorted by last access: the cache order (which every touch
re-establishes) agrees with ascending `last_access`. -/
def MemOrdered (st : MemState) : Prop :=
  (st.sessions.map (fun e => e.2.payload.lastAccess)).Sorted (· ≤ ·)

/-- The live (non-expired) slots of the memory tier, in cache order. -/
def memLiveSessions (now : Nat) (st : MemState) : List (String × MemEntry) :=
  st.sessions.filter (fun e => ¬ cacheExpired now e.2)

/-- Formalised from the spec sentence (not from the code): `OldestSessions
(limit)` returns at most `limit` sessions, ascending by the last-access
times as they stood when the call was made. -/
def specOldestSessions (now limit : Nat) (st : MemState) : List String :=
  ((stableSortByTime ((memLiveSessions now st).map
      (fun e => (e.1, e.2.payload.lastAccess)))).take limit).map Prod.fst

/-- Erase a list of keys in order (the net effect of evicting them). -/
def removeKeys (ks : List String) (l : List (String × MemEntry)) :
    List (String × MemEntry) :=
  ks.foldl (fun acc k => alistErase k acc) l

/-! ### Association-list lemmas -/

section AListLemmas

variable {κ α : Type} [DecidableEq κ]

@[simp] theorem alistGet_nil {k : κ} : alistGet k ([] : List (κ × α)) = none := rfl

@[simp] theorem alistGet_cons {k k' : κ} {v : α} {xs : List (κ × α)} :
    alistGet k ((k', v) :: xs) = if k' = k then some v else alistGet k xs := rfl

@[simp] theorem alistErase_nil {k : κ} : alistErase k ([] : List (κ × α)) = [] := rfl

@[simp] theorem alistErase_cons {k k' : κ} {v : α} {xs : List (κ × α)} :
    alistErase k ((k', v) :: xs) =
      if k' = k then xs else (k', v) :: alistErase k xs := rfl

@[simp] theorem alistSet_nil {k : κ} {v : α} :
    alistSet k v ([] : List (κ × α)) = [(k, v)] := rfl

@[simp] theorem alistSet_cons {k k' : κ} {v v' : α} {xs : List (κ × α)} :
    alistSet k v ((k', v') :: xs) =
      if k' = k then (k, v) :: xs else (k', v') :: alistSet k v xs := rfl

theorem alistGet_eq_none_iff {k : κ} {l : List (κ × α)} :
    alistGet k l = none ↔ k ∉ l.map Prod.fst := by
  induction l with
  | nil => simp
  | cons x xs ih =>
    obtain ⟨k', v⟩ := x
    by_cases h : k' = k
    · subst h; simp
    · have h' : ¬ k = k' := fun hh => h hh.symm
      simp [h, h', ih]

theorem alistGet_erase_of_ne {k k' : κ} {l : List (κ × α)} (h : k' ≠ k) :
    alistGet k' (alistErase k l) = alistGet k' l := by
  induction l with
  | nil => simp
  | cons x xs ih =>
    obtain ⟨a, b⟩ := x
    by_cases ha : a = k
    · subst ha
      have h' : ¬ a = k' := fun hh => h hh.symm
      simp [h']
    · by_cases ha' : a = k' <;> simp [ha, ha', ih, h]

theorem alistGet_append_of_none {k : κ} {l₁ l₂ : List (κ × α)}
    (h : alistGet k l₁ = none) : alistGet k (l₁ ++ l₂) = alistGet k l₂ := by
  induction l₁ with
  | nil => simp
  | cons x xs ih =>
    obtain ⟨a, b⟩ := x
    by_cases ha : a = k
    · simp [ha] at h
    · simp [ha] at h ⊢
      exact ih h

theorem alistGet_append_of_some {k : κ} {v : α} {l₁ l₂ : List (κ × α)}
    (h : alistGet k l₁ = some v) : alistGet k (l₁ ++ l₂) = some v := by
  induction l₁ with
  | nil => simp at h
  | cons x xs ih =>
    obtain ⟨a, b⟩ := x
    by_cases ha : a = k
    · simp [ha] at h ⊢; exact h
    · simp [ha] at h ⊢; exact ih h

theorem alistErase_of_none {k : κ} {l : List (κ × α)}
    (h : alistGet k l = none) : alistErase k l = l := by
  induction l with
  | nil => simp
  | cons x xs ih =>
    obtain ⟨a, b⟩ := x
    by_cases ha : a = k
    · simp [ha] at h
    · simp [ha] at h ⊢
      exact ih h

theorem alistErase_append_of_none {k : κ} {l₁ l₂ : List (κ × α)}
    (h : alistGet k l₁ = none) :
    alistErase k (l₁ ++ l₂) = l₁ ++ alistErase k l₂ := by
  induction l₁ with
  | nil => simp
  | cons x xs ih =>
    obtain ⟨a, b⟩ := x
    by_cases ha : a = k
    · simp [ha] at h
    · simp [ha] at h ⊢
      exact ih h

theorem alistErase_map_fst_sublist (k : κ) (l : List (κ × α)) :
    ((alistErase k l).map Prod.fst).Sublist (l.map Prod.fst) := by
  induction l with
  | nil => simp
  | cons x xs ih =>
    obtain ⟨a, b⟩ := x
    by_cases ha : a = k
    · simp only [alistErase_cons, if_pos ha, List.map_cons]
      exact List.Sublist.cons _ (List.Sublist.refl _)
    · simp only [alistErase_cons, if_neg ha, List.map_cons]
      exact List.Sublist.cons₂ _ ih

theorem alistGet_erase_self_of_nodup {κ α : Type} [DecidableEq κ] {l : List (κ × α)}
    (h : (l.map Prod.fst).Nodup) (k : κ) : alistGet k (alistErase k l) = none := by
  induction l with
  | nil => simp
  | cons x xs ih =>
    obtain ⟨a, b⟩ := x
    simp only [List.map_cons, List.nodup_cons] at h
    by_cases ha : a = k
    · subst ha
      simp [alistGet_eq_none_iff, h.1]
    · simp [ha, ih h.2]

theorem alistGet_erase_none {κ α : Type} [DecidableEq κ] {l : List (κ × α)} {k k' : κ}
    (h : alistGet k' l = none) : alistGet k' (alistErase k l) = none := by
  induction l with
  | nil => simp
  | cons x xs ih =>
    obtain ⟨a, b⟩ := x
    by_cases ha' : a = k'
    · simp [ha'] at h
    · simp only [alistGet_cons, if_neg ha'] at h
      by_cases ha : a = k
      · simp only [alistErase_cons, if_pos ha]
        exact h
      · simp only [alistErase_cons, if_neg ha, alistGet_cons, if_neg ha']
        exact ih h

theorem alistGet_alistSet_self {κ α : Type} [DecidableEq κ] (k : κ) (v : α)
    (l : List (κ × α)) : alistGet k (alistSet k v l) = some v := by
  induction l with
  | nil => simp
  | cons x xs ih =>
    obtain ⟨a, b⟩ := x
    by_cases ha : a = k <;> simp [ha, ih]

theorem alistGet_alistSet_ne {κ α : Type} [DecidableEq κ] {k k' : κ} (v : α)
    (l : List (κ × α)) (h : k' ≠ k) :
    alistGet k' (alistSet k v l) = alistGet k' l := by
  have h' : ¬ k = k' := fun hh => h hh.symm
  induction l with
  | nil => simp [h']
  | cons x xs ih =>
    obtain ⟨a, b⟩ := x
    by_cases ha : a = k
    · subst ha
      simp [h']
    · by_cases ha' : a = k' <;> simp [ha, ha', ih, h]

theorem cacheEvict_sublist (m : Nat) (l : List (String × MemEntry)) :
    (cacheEvict m l).Sublist l := by
  induction l with
  | nil => simp [cacheEvict]
  | cons x xs ih =>
    simp only [cacheEvict]
    by_cases h : xs.length + 1 ≥ m
    · simp only [if_pos h]
      exact List.Sublist.cons _ ih
    · simp only [if_neg h]
      exact List.Sublist.refl _

theorem cacheEvict_get_none {m : Nat} {l : List (String × MemEntry)} {k : String}
    (h : alistGet k l = none) : alistGet k (cacheEvict m l) = none := by
  rw [alistGet_eq_none_iff] at h ⊢
  intro hmem
  exact h (((cacheEvict_sublist m l).map Prod.fst).subset hmem)

/-- The entry `cacheSet` writes for `sid`. -/
def cacheSetEntry (cfg : MemConfig) (now : Nat) (p : MemPayload) : MemEntry :=
  ⟨p, if cfg.ttlSeconds > 0 then some (now + cfg.ttlSeconds) else none⟩

theorem cacheSet_eq (cfg : MemConfig) (now : Nat) (sid : String) (p : MemPayload)
    (st : MemState) :
    cacheSet cfg now sid p st =
      ⟨alistErase sid (if alistHas sid st.sessions then st.sessions
          else cacheEvict cfg.maxSessions st.sessions) ++
        [(sid, cacheSetEntry cfg now p)]⟩ := rfl

theorem cacheSet_WF {cfg : MemConfig} {now : Nat} {sid : String} {p : MemPayload}
    {st : MemState} (h : MemWF st) : MemWF (cacheSet cfg now sid p st) := by
  rw [cacheSet_eq]
  unfold MemWF at h ⊢
  set l := if alistHas sid st.sessions then st.sessions
    else cacheEvict cfg.maxSessions st.sessions with hl
  have hlnd : (l.map Prod.fst).Nodup := by
    rw [hl]
    by_cases hb : alistHas sid st.sessions
    · simpa [hb] using h
    · simp only [if_neg hb]
      exact ((cacheEvict_sublist _ _).map Prod.fst).nodup h
  have hnd : ((alistErase sid l).map Prod.fst).Nodup :=
    ((alistErase_map_fst_sublist sid l).nodup hlnd)
  have habs : sid ∉ (alistErase sid l).map Prod.fst := by
    rw [← alistGet_eq_none_iff]
    exact alistGet_erase_self_of_nodup hlnd sid
  simp only [List.map_append, List.map_cons, List.map_nil]
  rw [List.nodup_append]
  exact ⟨hnd, List.nodup_singleton _, by
    intro a ha hb
    simp only [List.mem_singleton] at hb
    subst hb
    exact habs ha⟩

theorem cacheSet_lookup_self {cfg : MemConfig} {now : Nat} {sid : String}
    {p : MemPayload} {st : MemState} (h : MemWF st) :
    alistGet sid (cacheSet cfg now sid p st).sessions =
      some (cacheSetEntry cfg now p) := by
  rw [cacheSet_eq]
  set l := if alistHas sid st.sessions then st.sessions
    else cacheEvict cfg.maxSessions st.sessions with hl
  have hlnd : (l.map Prod.fst).Nodup := by
    rw [hl]
    by_cases hb : alistHas sid st.sessions
    · simpa [hb] using h
    · simp only [if_neg hb]
      exact ((cacheEvict_sublist _ _).map Prod.fst).nodup h
  have habs : alistGet sid (alistErase sid l) = none :=
    alistGet_erase_self_of_nodup hlnd sid
  rw [show (⟨alistErase sid l ++ [(sid, cacheSetEntry cfg now p)]⟩ : MemState).sessions
      = alistErase sid l ++ [(sid, cacheSetEntry cfg now p)] from rfl]
  rw [alistGet_append_of_none habs]
  simp

theorem cacheSet_lookup_absent {cfg : MemConfig} {now : Nat} {sid sid' : String}
    {p : MemPayload} {st : MemState} (hne : sid' ≠ sid)
    (h : alistGet sid' st.sessions = none) :
    alistGet sid' (cacheSet cfg now sid p st).sessions = none := by
  rw [cacheSet_eq]
  have h₁ : alistGet sid' (if alistHas sid st.sessions then st.sessions
      else cacheEvict cfg.maxSessions st.sessions) = none := by
    by_cases hb : alistHas sid st.sessions
    · simpa [hb] using h
    · simp only [if_neg hb]
      exact cacheEvict_get_none h
  rw [show (⟨alistErase sid _ ++ [(sid, cacheSetEntry cfg now p)]⟩ : MemState).sessions
      = alistErase sid _ ++ [(sid, cacheSetEntry cfg now p)] from rfl]
  rw [alistGet_append_of_none (alistGet_erase_none h₁)]
  simp [Ne.symm hne]

theorem cacheExpired_cacheSetEntry (cfg : MemConfig) (now : Nat) (p : MemPayload) :
    cacheExpired now (cacheSetEntry cfg now p) = false := by
  unfold cacheSetEntry cacheExpired
  by_cases h : cfg.ttlSeconds > 0
  · simp only [if_pos h]
    simp
    omega
  · simp only [if_neg h]

theorem cacheGet_WF {now : Nat} {sid : String} {st : MemState} (h : MemWF st) :
    MemWF (cacheGet now sid st).2 := by
  unfold cacheGet
  match hg : alistGet sid st.sessions with
  | none => exact h
  | some e =>
    by_cases he : cacheExpired now e
    · simp only [he, if_true]
      exact (alistErase_map_fst_sublist sid st.sessions).nodup h
    · simp only [he, if_false]
      exact h

theorem cacheGet_absent {now : Nat} {sid : String} {st : MemState}
    (h : alistGet sid st.sessions = none) : cacheGet now sid st = (none, st) := by
  unfold cacheGet
  rw [h]

theorem cacheGet_absent_preserved {now : Nat} {sid sid' : String} {st : MemState}
    (h : alistGet sid' st.sessions = none) :
    alistGet sid' (cacheGet now sid st).2.sessions = none := by
  unfold cacheGet
  match hg : alistGet sid st.sessions with
  | none => exact h
  | some e =>
    by_cases he : cacheExpired now e
    · simp only [he, if_true]
      exact alistGet_erase_none h
    · simp only [he, if_false]
      exact h

end AListLemmas

theorem alistGet_mem {κ α : Type} [DecidableEq κ] {k : κ} {v : α} {l : List (κ × α)}
    (h : alistGet k l = some v) : (k, v) ∈ l := by
  induction l with
  | nil => simp at h
  | cons x xs ih =>
    obtain ⟨a, b⟩ := x
    by_cases ha : a = k
    · subst ha
      simp at h
      simp [h]
    · simp [ha] at h
      simp [ih h]

theorem alistErase_sublist {κ α : Type} [DecidableEq κ] (k : κ) (l : List (κ × α)) :
    (alistErase k l).Sublist l := by
  induction l with
  | nil => simp
  | cons x xs ih =>
    obtain ⟨a, b⟩ := x
    by_cases ha : a = k
    · simp only [alistErase_cons, if_pos ha]
      exact List.Sublist.cons _ (List.Sublist.refl _)
    · simp only [alistErase_cons, if_neg ha]
      exact List.Sublist.cons₂ _ ih

/-- Item dicts inside a payload have distinct names (Python dict). -/
def PayloadWF (p : MemPayload) : Prop := (p.data.map Prod.fst).Nodup

/-- Every stored payload has a well-formed item dict. -/
def MemItemsWF (st : MemState) : Prop := ∀ e ∈ st.sessions, PayloadWF e.2.payload

theorem cacheSet_ItemsWF {cfg : MemConfig} {now : Nat} {sid : String} {p : MemPayload}
    {st : MemState} (h : MemItemsWF st) (hp : PayloadWF p) :
    MemItemsWF (cacheSet cfg now sid p st) := by
  rw [cacheSet_eq]
  intro e he
  simp only [List.mem_append, List.mem_singleton] at he
  rcases he with he | he
  · have h1 : e ∈ st.sessions := by
      have h2 := (alistErase_sublist sid _).subset he
      by_cases hb : alistHas sid st.sessions
      · simpa [hb] using h2
      · simp only [if_neg hb] at h2
        exact (cacheEvict_sublist _ _).subset h2
    exact h e h1
  · subst he
    exact hp

theorem cacheGet_ItemsWF {now : Nat} {sid : String} {st : MemState}
    (h : MemItemsWF st) : MemItemsWF (cacheGet now sid st).2 := by
  unfold cacheGet
  match hg : alistGet sid st.sessions with
  | none => exact h
  | some e =>
    by_cases he : cacheExpired now e
    · simp only [he, if_true]
      intro x hx
      exact h x ((alistErase_sublist sid st.sessions).subset hx)
    · simp only [he, if_false]
      exact h

theorem cacheGet_payloadWF {now : Nat} {sid : String} {st : MemState} {p : MemPayload}
    (h : MemItemsWF st) (hg : (cacheGet now sid st).1 = some p) : PayloadWF p := by
  unfold cacheGet at hg
  match hgl : alistGet sid st.sessions with
  | none => rw [hgl] at hg; simp at hg
  | some e =>
    rw [hgl] at hg
    by_cases he : cacheExpired now e
    · simp [he] at hg
    · simp only [he, if_false] at hg
      cases hg
      exact h _ (alistGet_mem hgl)

theorem memTouch_WF {cfg : MemConfig} {now : Nat} {sid : String} {p : MemPayload}
    {st : MemState} (h : MemWF st) : MemWF (memTouch cfg now sid p st) :=
  cacheSet_WF h

theorem memTouch_ItemsWF {cfg : MemConfig} {now : Nat} {sid : String} {p : MemPayload}
    {st : MemState} (h : MemItemsWF st) (hp : PayloadWF p) :
    MemItemsWF (memTouch cfg now sid p st) :=
  cacheSet_ItemsWF h hp

theorem memGetPayload_WF {cfg : MemConfig} {now : Nat} {sid : String} {st : MemState}
    (h : MemWF st) : MemWF (memGetPayload cfg now sid st).2 := by
  unfold memGetPayload
  have h2 := @cacheGet_WF now sid _ h
  rcases hg : cacheGet now sid st with ⟨o, st'⟩
  rw [hg] at h2
  cases o with
  | none => exact h2
  | some p => exact memTouch_WF h2

theorem memGetPayload_ItemsWF {cfg : MemConfig} {now : Nat} {sid : String}
    {st : MemState} (h : MemItemsWF st) : MemItemsWF (memGetPayload cfg now sid st).2 := by
  unfold memGetPayload
  have h2 := @cacheGet_ItemsWF now sid _ h
  rcases hg : cacheGet now sid st with ⟨o, st'⟩
  rw [hg] at h2
  cases o with
  | none => exact h2
  | some p =>
    have hp : PayloadWF p := cacheGet_payloadWF h (by rw [hg])
    exact memTouch_ItemsWF h2 hp

theorem memEnsurePayload_WF {cfg : MemConfig} {now : Nat} {sid : String} {st : MemState}
    (h : MemWF st) : MemWF (memEnsurePayload cfg now sid st).2 := by
  unfold memEnsurePayload
  have h2 := @cacheGet_WF now sid _ h
  rcases hg : cacheGet now sid st with ⟨o, st'⟩
  rw [hg] at h2
  cases o with
  | some p => exact memTouch_WF h2
  | none => exact memTouch_WF (cacheSet_WF h2)

theorem memEnsurePayload_ItemsWF {cfg : MemConfig} {now : Nat} {sid : String}
    {st : MemState} (h : MemItemsWF st) :
    MemItemsWF (memEnsurePayload cfg now sid st).2 := by
  unfold memEnsurePayload
  have h2 := @cacheGet_ItemsWF now sid _ h
  rcases hg : cacheGet now sid st with ⟨o, st'⟩
  rw [hg] at h2
  cases o with
  | some p =>
    exact memTouch_ItemsWF h2 (cacheGet_payloadWF h (by rw [hg]))
  | none =>
    have hp : PayloadWF (⟨[], now, now⟩ : MemPayload) := by
      simp [PayloadWF]
    exact memTouch_ItemsWF (cacheSet_ItemsWF h2 hp) hp

theorem memEnsurePayload_payloadWF {cfg : MemConfig} {now : Nat} {sid : String}
    {st : MemState} (h : MemItemsWF st) :
    PayloadWF (memEnsurePayload cfg now sid st).1 := by
  unfold memEnsurePayload
  rcases hg : cacheGet now sid st with ⟨o, st'⟩
  cases o with
  | some p =>
    have hp : PayloadWF p := cacheGet_payloadWF h (by rw [hg])
    exact hp
  | none => simp [PayloadWF]

theorem enforceItemCap_sublist (m : Nat) (l : List (String × Value)) :
    (enforceItemCap m l).Sublist l := by
  induction l with
  | nil => simp [enforceItemCap]
  | cons x xs ih =>
    simp only [enforceItemCap]
    by_cases h : xs.length + 1 > m
    · simp only [if_pos h]
      exact List.Sublist.cons _ ih
    · simp only [if_neg h]
      exact List.Sublist.refl _

theorem memSetDataframe_WF {cfg : MemConfig} {now : Nat} {sid name : String}
    {v : Value} {st : MemState} (h : MemWF st) :
    MemWF (memSetDataframe cfg now sid name v st) := by
  unfold memSetDataframe
  exact memTouch_WF (memEnsurePayload_WF h)

theorem memSetDataframe_ItemsWF {cfg : MemConfig} {now : Nat} {sid name : String}
    {v : Value} {st : MemState} (h : MemItemsWF st) :
    MemItemsWF (memSetDataframe cfg now sid name v st) := by
  unfold memSetDataframe
  apply memTouch_ItemsWF (memEnsurePayload_ItemsWF h)
  have hp := @memEnsurePayload_payloadWF cfg now sid _ h
  unfold PayloadWF at hp ⊢
  apply ((enforceItemCap_sublist _ _).map Prod.fst).nodup
  set od := if alistHas name (memEnsurePayload cfg now sid st).1.data
    then alistErase name (memEnsurePayload cfg now sid st).1.data
    else (memEnsurePayload cfg now sid st).1.data with hod
  have hodnd : (od.map Prod.fst).Nodup := by
    rw [hod]
    by_cases hb : alistHas name (memEnsurePayload cfg now sid st).1.data
    · simp only [if_pos hb]
      exact (alistErase_map_fst_sublist _ _).nodup hp
    · simpa [hb] using hp
  have habs : name ∉ od.map Prod.fst := by
    rw [← alistGet_eq_none_iff, hod]
    by_cases hb : alistHas name (memEnsurePayload cfg now sid st).1.data
    · simp only [if_pos hb]
      exact alistGet_erase_self_of_nodup hp name
    · simp only [if_neg hb]
      cases hgo : alistGet name (memEnsurePayload cfg now sid st).1.data with
      | none => rfl
      | some w => exact absurd (by simp [alistHas, hgo]) hb
  simp only [List.map_append, List.map_cons, List.map_nil]
  rw [List.nodup_append]
  exact ⟨hodnd, List.nodup_singleton _, by
    intro a ha hb
    simp only [List.mem_singleton] at hb
    subst hb
    exact habs ha⟩

theorem memSetSessionData_WF {cfg : MemConfig} {now : Nat} {sid : String}
    {data : List (String × Value)} {st : MemState} (h : MemWF st) :
    MemWF (memSetSessionData cfg now sid data st) := by
  unfold memSetSessionData
  exact memTouch_WF (memEnsurePayload_WF h)

theorem memSetSessionData_ItemsWF {cfg : MemConfig} {now : Nat} {sid : String}
    {data : List (String × Value)} {st : MemState} (h : MemItemsWF st)
    (hd : (data.map Prod.fst).Nodup) :
    MemItemsWF (memSetSessionData cfg now sid data st) := by
  unfold memSetSessionData
  apply memTouch_ItemsWF (memEnsurePayload_ItemsWF h)
  exact ((enforceItemCap_sublist _ _).map Prod.fst).nodup hd

theorem memGetDataframe_WF {cfg : MemConfig} {now : Nat} {sid name : String}
    {st : MemState} (h : MemWF st) : MemWF (memGetDataframe cfg now sid name st).2 := by
  unfold memGetDataframe
  have h2 := @memGetPayload_WF cfg now sid _ h
  rcases hg : memGetPayload cfg now sid st with ⟨o, st'⟩
  rw [hg] at h2
  cases o with
  | none => exact h2
  | some p => exact h2

theorem memGetDataframe_ItemsWF {cfg : MemConfig} {now : Nat} {sid name : String}
    {st : MemState} (h : MemItemsWF st) :
    MemItemsWF (memGetDataframe cfg now sid name st).2 := by
  unfold memGetDataframe
  have h2 := @memGetPayload_ItemsWF cfg now sid _ h
  rcases hg : memGetPayload cfg now sid st with ⟨o, st'⟩
  rw [hg] at h2
  cases o with
  | none => exact h2
  | some p => exact h2

theorem memHasSession_WF {cfg : MemConfig} {now : Nat} {sid : String} {st : MemState}
    (h : MemWF st) : MemWF (memHasSession cfg now sid st).2 := by
  unfold memHasSession
  have h2 := @cacheGet_WF now sid _ h
  rcases hg : cacheGet now sid st with ⟨o, st'⟩
  rw [hg] at h2
  cases o with
  | none => exact h2
  | some p => exact memTouch_WF h2

theorem memHasSession_ItemsWF {cfg : MemConfig} {now : Nat} {sid : String}
    {st : MemState} (h : MemItemsWF st) : MemItemsWF (memHasSession cfg now sid st).2 := by
  unfold memHasSession
  have h2 := @cacheGet_ItemsWF now sid _ h
  rcases hg : cacheGet now sid st with ⟨o, st'⟩
  rw [hg] at h2
  cases o with
  | none => exact h2
  | some p => exact memTouch_ItemsWF h2 (cacheGet_payloadWF h (by rw [hg]))

theorem memRemoveSession_WF {sid : String} {st : MemState} (h : MemWF st) :
    MemWF (memRemoveSession sid st) :=
  (alistErase_map_fst_sublist sid st.sessions).nodup h

theorem memRemoveSession_ItemsWF {sid : String} {st : MemState} (h : MemItemsWF st) :
    MemItemsWF (memRemoveSession sid st) := by
  intro e he
  exact h e ((alistErase_sublist sid st.sessions).subset he)

theorem memGetSessionSize_WF {cfg : MemConfig} {now : Nat} {sid : String}
    {st : MemState} (h : MemWF st) : MemWF (memGetSessionSize cfg now sid st).2 := by
  unfold memGetSessionSize
  have h2 := @memGetPayload_WF cfg now sid _ h
  rcases hg : memGetPayload cfg now sid st with ⟨o, st'⟩
  rw [hg] at h2
  cases o with
  | none => exact h2
  | some p => exact h2

theorem memGetSessionSize_ItemsWF {cfg : MemConfig} {now : Nat} {sid : String}
    {st : MemState} (h : MemItemsWF st) :
    MemItemsWF (memGetSessionSize cfg now sid st).2 := by
  unfold memGetSessionSize
  have h2 := @memGetPayload_ItemsWF cfg now sid _ h
  rcases hg : memGetPayload cfg now sid st with ⟨o, st'⟩
  rw [hg] at h2
  cases o with
  | none => exact h2
  | some p => exact h2

theorem memOldestLoop_WF {cfg : MemConfig} {now : Nat} {keys : List String}
    {st : MemState} (h : MemWF st) : MemWF (memOldestLoop cfg now keys st).2 := by
  induction keys generalizing st with
  | nil => exact h
  | cons k rest ih =>
    unfold memOldestLoop
    have h2 := @memGetPayload_WF cfg now k _ h
    rcases hg : memGetPayload cfg now k st with ⟨o, st'⟩
    rw [hg] at h2
    cases o with
    | none => exact ih h2
    | some p =>
      have h3 := @ih st' h2
      rcases hl : memOldestLoop cfg now rest st' with ⟨acc, st''⟩
      rw [hl] at h3
      simp only [hl]
      exact h3

theorem memOldestLoop_ItemsWF {cfg : MemConfig} {now : Nat} {keys : List String}
    {st : MemState} (h : MemItemsWF st) : MemItemsWF (memOldestLoop cfg now keys st).2 := by
  induction keys generalizing st with
  | nil => exact h
  | cons k rest ih =>
    unfold memOldestLoop
    have h2 := @memGetPayload_ItemsWF cfg now k _ h
    rcases hg : memGetPayload cfg now k st with ⟨o, st'⟩
    rw [hg] at h2
    cases o with
    | none => exact ih h2
    | some p =>
      have h3 := @ih st' h2
      rcases hl : memOldestLoop cfg now rest st' with ⟨acc, st''⟩
      rw [hl] at h3
      simp only [hl]
      exact h3

theorem memGetOldestSessions_WF {cfg : MemConfig} {now limit : Nat} {st : MemState}
    (h : MemWF st) : MemWF (memGetOldestSessions cfg now limit st).2 := by
  unfold memGetOldestSessions
  have h2 := @memOldestLoop_WF cfg now (st.sessions.map Prod.fst) st h
  rcases hl : memOldestLoop cfg now (st.sessions.map Prod.fst) st with ⟨acc, st'⟩
  rw [hl] at h2
  exact h2

theorem memGetOldestSessions_ItemsWF {cfg : MemConfig} {now limit : Nat} {st : MemState}
    (h : MemItemsWF st) : MemItemsWF (memGetOldestSessions cfg now limit st).2 := by
  unfold memGetOldestSessions
  have h2 := @memOldestLoop_ItemsWF cfg now (st.sessions.map Prod.fst) st h
  rcases hl : memOldestLoop cfg now (st.sessions.map Prod.fst) st with ⟨acc, st'⟩
  rw [hl] at h2
  exact h2

theorem hybridRelieveLoop_WF {cfg : HybridConfig} {env : Env} {now required : Nat}
    {cands : List (String × Nat)} {freed : Nat} {st : HybridState} (h : MemWF st.mem) :
    MemWF (hybridRelieveLoop cfg env now required cands freed st).mem := by
  induction cands generalizing freed st with
  | nil => exact h
  | cons c rest ih =>
    obtain ⟨sid, t⟩ := c
    unfold hybridRelieveLoop
    by_cases hld : sid ∈ st.loading
    · simp only [if_pos hld]
      exact ih h
    · simp only [if_neg hld]
      have h2 : MemWF (memRemoveSession sid (memGetSessionSize cfg.memCfg now sid st.mem).2) :=
        memRemoveSession_WF (memGetSessionSize_WF h)
      by_cases hb1 : required > 0 ∧ freed + (memGetSessionSize cfg.memCfg now sid st.mem).1 ≥ required
      · simp only [if_pos hb1]
        exact h2
      · simp only [if_neg hb1]
        by_cases hb2 : ¬ hybridCheckMemoryPressure cfg env = true
        · simp only [if_pos hb2]
          exact h2
        · simp only [if_neg hb2]
          exact ih h2

theorem hybridRelieveLoop_ItemsWF {cfg : HybridConfig} {env : Env} {now required : Nat}
    {cands : List (String × Nat)} {freed : Nat} {st : HybridState}
    (h : MemItemsWF st.mem) :
    MemItemsWF (hybridRelieveLoop cfg env now required cands freed st).mem := by
  induction cands generalizing freed st with
  | nil => exact h
  | cons c rest ih =>
    obtain ⟨sid, t⟩ := c
    unfold hybridRelieveLoop
    by_cases hld : sid ∈ st.loading
    · simp only [if_pos hld]
      exact ih h
    · simp only [if_neg hld]
      have h2 : MemItemsWF (memRemoveSession sid (memGetSessionSize cfg.memCfg now sid st.mem).2) :=
        memRemoveSession_ItemsWF (memGetSessionSize_ItemsWF h)
      by_cases hb1 : required > 0 ∧ freed + (memGetSessionSize cfg.memCfg now sid st.mem).1 ≥ required
      · simp only [if_pos hb1]
        exact h2
      · simp only [if_neg hb1]
        by_cases hb2 : ¬ hybridCheckMemoryPressure cfg env = true
        · simp only [if_pos hb2]
          exact h2
        · simp only [if_neg hb2]
          exact ih h2

theorem hybridRelieve_WF {cfg : HybridConfig} {env : Env} {now required : Nat}
    {st : HybridState} (h : MemWF st.mem) :
    MemWF (hybridRelieve cfg env now required st).mem := by
  unfold hybridRelieve
  have h2 := @memGetOldestSessions_WF cfg.memCfg now 20 st.mem h
  rcases hl : memGetOldestSessions cfg.memCfg now 20 st.mem with ⟨oldest, mem'⟩
  rw [hl] at h2
  simp only [hl]
  exact hybridRelieveLoop_WF h2

theorem cacheGet_of_live {now : Nat} {sid : String} {st : MemState} {e : MemEntry}
    (hl : alistGet sid st.sessions = some e) (hx : cacheExpired now e = false) :
    cacheGet now sid st = (some e.payload, st) := by
  unfold cacheGet
  rw [hl]
  simp [hx]

theorem cacheGet_of_expired {now : Nat} {sid : String} {st : MemState} {e : MemEntry}
    (hl : alistGet sid st.sessions = some e) (hx : cacheExpired now e = true) :
    cacheGet now sid st = (none, ⟨alistErase sid st.sessions⟩) := by
  unfold cacheGet
  rw [hl]
  simp [hx]

theorem cacheGet_some_state {now : Nat} {sid : String} {st : MemState} {p : MemPayload}
    (h : (cacheGet now sid st).1 = some p) : (cacheGet now sid st).2 = st := by
  cases hl : alistGet sid st.sessions with
  | none => rw [cacheGet_absent hl]
  | some e =>
    cases hx : cacheExpired now e with
    | true =>
      rw [cacheGet_of_expired hl hx] at h
      simp at h
    | false => rw [cacheGet_of_live hl hx]

theorem memSetDataframe_lookup_self {cfg : MemConfig} {now : Nat} {sid name : String}
    {v : Value} {st : MemState} (h : MemWF st) (hi : MemItemsWF st) :
    ∃ od c, alistGet name od = none ∧
      alistGet sid (memSetDataframe cfg now sid name v st).sessions =
        some (cacheSetEntry cfg now
          ⟨enforceItemCap cfg.maxItemsPerSession (od ++ [(name, v)]), c, now⟩) := by
  unfold memSetDataframe
  rcases he : memEnsurePayload cfg now sid st with ⟨p, st'⟩
  have hwf' : MemWF st' := by
    have := @memEnsurePayload_WF cfg now sid _ h
    rw [he] at this
    exact this
  have hpwf : PayloadWF p := by
    have := @memEnsurePayload_payloadWF cfg now sid _ hi
    rw [he] at this
    exact this
  by_cases hb : alistHas name p.data
  · refine ⟨alistErase name p.data, p.createdAt, ?_, ?_⟩
    · exact alistGet_erase_self_of_nodup hpwf name
    · simp only [he, if_pos hb]
      simpa [memTouch] using @cacheSet_lookup_self cfg now sid { p with data := enforceItemCap cfg.maxItemsPerSession (alistErase name p.data ++ [(name, v)]), lastAccess := now } _ hwf'
  · refine ⟨p.data, p.createdAt, ?_, ?_⟩
    · cases hgo : alistGet name p.data with
      | none => rfl
      | some w => exact absurd (by simp [alistHas, hgo]) hb
    · simp only [he, if_neg hb]
      simpa [memTouch] using @cacheSet_lookup_self cfg now sid { p with data := enforceItemCap cfg.maxItemsPerSession (p.data ++ [(name, v)]), lastAccess := now } _ hwf'

theorem memSetSessionData_lookup_self {cfg : MemConfig} {now : Nat} {sid : String}
    {data : List (String × Value)} {st : MemState} (h : MemWF st) :
    ∃ c, alistGet sid (memSetSessionData cfg now sid data st).sessions =
      some (cacheSetEntry cfg now
        ⟨enforceItemCap cfg.maxItemsPerSession data, c, now⟩) := by
  unfold memSetSessionData
  rcases he : memEnsurePayload cfg now sid st with ⟨p, st'⟩
  have hwf' : MemWF st' := by
    have := @memEnsurePayload_WF cfg now sid _ h
    rw [he] at this
    exact this
  refine ⟨p.createdAt, ?_⟩
  simp only [he]
  simpa [memTouch] using @cacheSet_lookup_self cfg now sid { p with data := enforceItemCap cfg.maxItemsPerSession data, lastAccess := now } _ hwf'

theorem memHasSession_of_live {cfg : MemConfig} {now : Nat} {sid : String}
    {st : MemState} {e : MemEntry} (h : MemWF st)
    (hl : alistGet sid st.sessions = some e) (hx : cacheExpired now e = false) :
    (memHasSession cfg now sid st).1 = true ∧
      alistGet sid (memHasSession cfg now sid st).2.sessions =
        some (cacheSetEntry cfg now
          ⟨e.payload.data, e.payload.createdAt, now⟩) := by
  unfold memHasSession
  rw [cacheGet_of_live hl hx]
  refine ⟨rfl, ?_⟩
  simpa [memTouch] using @cacheSet_lookup_self cfg now sid { e.payload with lastAccess := now } _ h

theorem memGetDataframe_of_live {cfg : MemConfig} {now : Nat} {sid name : String}
    {st : MemState} {e : MemEntry} (h : MemWF st)
    (hl : alistGet sid st.sessions = some e) (hx : cacheExpired now e = false) :
    (memGetDataframe cfg now sid name st).1 = alistGet name e.payload.data ∧
      alistGet sid (memGetDataframe cfg now sid name st).2.sessions =
        some (cacheSetEntry cfg now
          ⟨e.payload.data, e.payload.createdAt, now⟩) := by
  unfold memGetDataframe memGetPayload
  rw [cacheGet_of_live hl hx]
  refine ⟨rfl, ?_⟩
  simpa [memTouch] using @cacheSet_lookup_self cfg now sid { e.payload with lastAccess := now } _ h

theorem enforceItemCap_lookup_last {m : Nat} {k : String} {v : Value}
    {l : List (String × Value)} (hm : 1 ≤ m) (habs : alistGet k l = none) :
    alistGet k (enforceItemCap m (l ++ [(k, v)])) = some v := by
  induction l with
  | nil =>
    have h0 : enforceItemCap m ([] ++ [(k, v)]) = [(k, v)] := by
      show (if ([] : List (String × Value)).length + 1 > m
        then enforceItemCap m [] else [(k, v)]) = [(k, v)]
      have hc : ¬ (([] : List (String × Value)).length + 1 > m) := by
        simp only [List.length_nil]
        omega
      rw [if_neg hc]
    rw [h0]
    simp
  | cons x xs ih =>
    obtain ⟨a, b⟩ := x
    by_cases ha : a = k
    · simp [ha] at habs
    · simp only [alistGet_cons, if_neg ha] at habs
      have hstep : enforceItemCap m (((a, b) :: xs) ++ [(k, v)]) =
          if (xs ++ [(k, v)]).length + 1 > m then enforceItemCap m (xs ++ [(k, v)])
          else (a, b) :: (xs ++ [(k, v)]) := rfl
      rw [hstep]
      by_cases hlen : (xs ++ [(k, v)]).length + 1 > m
      · rw [if_pos hlen]
        exact ih habs
      · rw [if_neg hlen, alistGet_cons, if_neg ha, alistGet_append_of_none habs]
        simp

theorem memGetPayload_absent_preserved {cfg : MemConfig} {now : Nat} {sid sid' : String}
    {st : MemState} (h : alistGet sid' st.sessions = none) :
    alistGet sid' (memGetPayload cfg now sid st).2.sessions = none := by
  by_cases hsid : sid = sid'
  · subst hsid
    unfold memGetPayload
    rw [cacheGet_absent h]
    exact h
  · unfold memGetPayload
    have h2 := @cacheGet_absent_preserved now sid _ _ h
    rcases hg : cacheGet now sid st with ⟨o, st'⟩
    rw [hg] at h2
    cases o with
    | none => exact h2
    | some p => exact cacheSet_lookup_absent (fun hh => hsid hh.symm) h2

theorem memGetSessionSize_absent_preserved {cfg : MemConfig} {now : Nat}
    {sid sid' : String} {st : MemState} (h : alistGet sid' st.sessions = none) :
    alistGet sid' (memGetSessionSize cfg now sid st).2.sessions = none := by
  unfold memGetSessionSize
  have h2 := @memGetPayload_absent_preserved cfg now sid sid' _ h
  rcases hg : memGetPayload cfg now sid st with ⟨o, st'⟩
  rw [hg] at h2
  cases o with
  | none => exact h2
  | some p => exact h2

theorem memOldestLoop_absent_preserved {cfg : MemConfig} {now : Nat}
    {keys : List String} {sid' : String} {st : MemState}
    (h : alistGet sid' st.sessions = none) :
    alistGet sid' (memOldestLoop cfg now keys st).2.sessions = none := by
  induction keys generalizing st with
  | nil => exact h
  | cons k rest ih =>
    unfold memOldestLoop
    have h2 := @memGetPayload_absent_preserved cfg now k sid' _ h
    rcases hg : memGetPayload cfg now k st with ⟨o, st'⟩
    rw [hg] at h2
    cases o with
    | none => exact ih h2
    | some p =>
      have h3 := @ih st' h2
      rcases hl : memOldestLoop cfg now rest st' with ⟨acc, st''⟩
      rw [hl] at h3
      simp only [hl]
      exact h3

theorem memGetOldestSessions_absent_preserved {cfg : MemConfig} {now limit : Nat}
    {sid' : String} {st : MemState} (h : alistGet sid' st.sessions = none) :
    alistGet sid' (memGetOldestSessions cfg now limit st).2.sessions = none := by
  unfold memGetOldestSessions
  have h2 := @memOldestLoop_absent_preserved cfg now (st.sessions.map Prod.fst) sid' _ h
  rcases hl : memOldestLoop cfg now (st.sessions.map Prod.fst) st with ⟨acc, st'⟩
  rw [hl] at h2
  exact h2

theorem hybridRelieveLoop_absent_preserved {cfg : HybridConfig} {env : Env}
    {now required : Nat} {cands : List (String × Nat)} {freed : Nat}
    {sid' : String} {st : HybridState} (h : alistGet sid' st.mem.sessions = none) :
    alistGet sid' (hybridRelieveLoop cfg env now required cands freed st).mem.sessions
      = none := by
  induction cands generalizing freed st with
  | nil => exact h
  | cons c rest ih =>
    obtain ⟨sid, t⟩ := c
    unfold hybridRelieveLoop
    by_cases hld : sid ∈ st.loading
    · simp only [if_pos hld]
      exact ih h
    · simp only [if_neg hld]
      have h2 : alistGet sid'
          (memRemoveSession sid (memGetSessionSize cfg.memCfg now sid st.mem).2).sessions
          = none :=
        alistGet_erase_none (memGetSessionSize_absent_preserved h)
      by_cases hb1 : required > 0 ∧ freed + (memGetSessionSize cfg.memCfg now sid st.mem).1 ≥ required
      · simp only [if_pos hb1]
        exact h2
      · simp only [if_neg hb1]
        by_cases hb2 : ¬ hybridCheckMemoryPressure cfg env = true
        · simp only [if_pos hb2]
          exact h2
        · simp only [if_neg hb2]
          exact ih h2

theorem hybridRelieve_absent_preserved {cfg : HybridConfig} {env : Env}
    {now required : Nat} {sid' : String} {st : HybridState}
    (h : alistGet sid' st.mem.sessions = none) :
    alistGet sid' (hybridRelieve cfg env now required st).mem.sessions = none := by
  unfold hybridRelieve
  have h2 := @memGetOldestSessions_absent_preserved cfg.memCfg now 20 sid' _ h
  rcases hl : memGetOldestSessions cfg.memCfg now 20 st.mem with ⟨oldest, mem'⟩
  rw [hl] at h2
  simp only [hl]
  exact hybridRelieveLoop_absent_preserved h2

theorem hybridRelieve_ItemsWF {cfg : HybridConfig} {env : Env} {now required : Nat}
    {st : HybridState} (h : MemItemsWF st.mem) :
    MemItemsWF (hybridRelieve cfg env now required st).mem := by
  unfold hybridRelieve
  have h2 := @memGetOldestSessions_ItemsWF cfg.memCfg now 20 st.mem h
  rcases hl : memGetOldestSessions cfg.memCfg now 20 st.mem with ⟨oldest, mem'⟩
  rw [hl] at h2
  simp only [hl]
  exact hybridRelieveLoop_ItemsWF h2

theorem alistGet_append_self_isSome {κ α : Type} [DecidableEq κ] (k : κ) (e : α)
    (l : List (κ × α)) : (alistGet k (l ++ [(k, e)])).isSome = true := by
  cases hl : alistGet k l with
  | none => rw [alistGet_append_of_none hl]; simp
  | some v => rw [alistGet_append_of_some hl]; simp

theorem cacheSet_lookup_isSome (cfg : MemConfig) (now : Nat) (sid : String)
    (p : MemPayload) (st : MemState) :
    (alistGet sid (cacheSet cfg now sid p st).sessions).isSome = true := by
  rw [cacheSet_eq]
  exact alistGet_append_self_isSome sid _ _

/-! ### Claim C8: per-session item cap is insertion-order eviction -/

/-- C8 (confirmed): in a memory tier with `maxItemsPerSession = 2`, writing
items "a", "b", "c" in that order to session "S" leaves exactly the items
"b" and "c" — "a" is evicted as oldest-inserted; and the same holds even
when "a" is read (accessed) just before "c" is written, showing eviction
within a session follows insertion order, not access order. -/
theorem c8_item_cap_insertion_order :
    (memSessionItems "S"
        (memSetDataframe ⟨100, 10, 2⟩ 3 "S" "c" (.generic [3])
          (memSetDataframe ⟨100, 10, 2⟩ 2 "S" "b" (.generic [2])
            (memSetDataframe ⟨100, 10, 2⟩ 1 "S" "a" (.generic [1]) ⟨[]⟩)))
      = some [("b", .generic [2]), ("c", .generic [3])])
  ∧ (memSessionItems "S"
        (memSetDataframe ⟨100, 10, 2⟩ 4 "S" "c" (.generic [3])
          ((memGetDataframe ⟨100, 10, 2⟩ 3 "S" "a"
            (memSetDataframe ⟨100, 10, 2⟩ 2 "S" "b" (.generic [2])
              (memSetDataframe ⟨100, 10, 2⟩ 1 "S" "a" (.generic [1]) ⟨[]⟩))).2))
      = some [("b", .generic [2]), ("c", .generic [3])]) :=
  ⟨rfl, rfl⟩

/-! ### Claim C6: the memory-tier CanFit conditions -/

/-- C6 counterexample: with `maxSessions = 1` and session "s1" resident,
adding a fresh session "s2" would exceed the session cap, yet
`can_fit_in_memory` still returns true at 50 percent memory usage: the
check ignores both `maxSessions` and `maxItemsPerSession`. -/
theorem c6_counterexample :
    (memSetDataframe ⟨100, 1, 5⟩ 1 "s1" "df" (.generic [1]) ⟨[]⟩).sessions.length = 1
  ∧ alistHas "s2" (memSetDataframe ⟨100, 1, 5⟩ 1 "s1" "df" (.generic [1]) ⟨[]⟩).sessions
      = false
  ∧ memCanFit 50 "s2" 1000000 = true :=
  ⟨rfl, rfl, rfl⟩

/-- C6 (amended): `can_fit_in_memory` consults only the process-wide memory
utilization, against a hard-coded 90-percent threshold — it returns true
iff utilization is below 90, identically in the session id and the
requested additional size, and independently of the configured
`maxSessions` / `maxItemsPerSession` bounds (which are enforced by
eviction at write time instead, never by CanFit). -/
theorem c6_canfit_is_memory_threshold_only (memPercent n n' : Nat)
    (sid sid' : String) :
    (memCanFit memPercent sid n = true ↔ memPercent < 90)
  ∧ memCanFit memPercent sid n = memCanFit memPercent sid' n' :=
  ⟨by simp [memCanFit], rfl⟩

/-! ### Claim C7: sliding TTL -/

/-- C7 (confirmed): a set always re-records the session's expiry deadline
as `now + ttl`; a successful payload read (the core of `get_dataframe`,
`get_session_data` and `has_session`) does the same; and concretely with
`ttl = 10`: write at 0 then check at 15 finds the session gone, while
write at 0, read at 6, check at 15 finds it alive (deadline refreshed to
16 at the read). -/
theorem c7_sliding_ttl :
    (∀ (cfg : MemConfig) (now : Nat) (sid name : String) (v : Value) (st : MemState),
      MemWF st → MemItemsWF st → 0 < cfg.ttlSeconds →
      memExpireOf sid (memSetDataframe cfg now sid name v st) =
        some (some (now + cfg.ttlSeconds)))
  ∧ (∀ (cfg : MemConfig) (now : Nat) (sid : String) (st : MemState),
      MemWF st → 0 < cfg.ttlSeconds →
      (memGetPayload cfg now sid st).1.isSome = true →
      memExpireOf sid (memGetPayload cfg now sid st).2 =
        some (some (now + cfg.ttlSeconds)))
  ∧ (memHasSession ⟨10, 100, 50⟩ 15 "S"
      (memSetDataframe ⟨10, 100, 50⟩ 0 "S" "df" (.generic [1]) ⟨[]⟩)).1 = false
  ∧ (memHasSession ⟨10, 100, 50⟩ 15 "S"
      ((memGetDataframe ⟨10, 100, 50⟩ 6 "S" "df"
        (memSetDataframe ⟨10, 100, 50⟩ 0 "S" "df" (.generic [1]) ⟨[]⟩)).2)).1 = true := by
  refine ⟨?_, ?_, rfl, rfl⟩
  · intro cfg now sid name v st h hi ht
    obtain ⟨od, c, -, hlook⟩ := @memSetDataframe_lookup_self cfg now sid name v _ h hi
    unfold memExpireOf
    rw [hlook]
    simp [cacheSetEntry, ht]
  · intro cfg now sid st h ht hs
    unfold memGetPayload at hs ⊢
    have hwf2 := @cacheGet_WF now sid _ h
    rcases hg : cacheGet now sid st with ⟨o, st'⟩
    rw [hg] at hs hwf2
    cases o with
    | none => simp at hs
    | some p =>
      unfold memExpireOf
      have := @cacheSet_lookup_self cfg now sid { p with lastAccess := now } _ hwf2
      simp only [memTouch]
      rw [this]
      simp [cacheSetEntry, ht]

/-- Witness for C7: the general parts applied at a concrete write and a
concrete read. -/
theorem c7_sliding_ttl_witness :
    memExpireOf "S" (memSetDataframe ⟨10, 100, 50⟩ 0 "S" "df" (.generic [1]) ⟨[]⟩)
      = some (some 10)
  ∧ memExpireOf "S" (memGetPayload ⟨10, 100, 50⟩ 6 "S"
      (memSetDataframe ⟨10, 100, 50⟩ 0 "S" "df" (.generic [1]) ⟨[]⟩)).2
      = some (some 16) :=
  ⟨c7_sliding_ttl.1 ⟨10, 100, 50⟩ 0 "S" "df" (.generic [1]) ⟨[]⟩
      (by simp [MemWF]) (by simp [MemItemsWF]) (by decide),
   c7_sliding_ttl.2.1 ⟨10, 100, 50⟩ 6 "S"
      (memSetDataframe ⟨10, 100, 50⟩ 0 "S" "df" (.generic [1]) ⟨[]⟩)
      (memSetDataframe_WF (by simp [MemWF])) (by decide) (by decide)⟩

/-! ### Claim C10: sessions are created only by writes -/

/-- C10 counterexample: the memory tier's `get_session_data` on an unknown
session returns an empty dict but creates the session record
(`_ensure_payload`), so `has_session` flips to true after a pure read. -/
theorem c10_counterexample :
    (memGetSessionData ⟨100, 10, 5⟩ 0 "s" ⟨[]⟩).1 = []
  ∧ (memHasSession ⟨100, 10, 5⟩ 0 "s"
      (memGetSessionData ⟨100, 10, 5⟩ 0 "s" ⟨[]⟩).2).1 = true :=
  ⟨rfl, rfl⟩

/-- C10 (amended): for a session id never written, GetItem, item/session
size queries and HasSession on the memory tier leave the session
non-existent (and report absence), and the coordinator's GetSessionData on
a session unknown to both tiers returns an empty result without creating
anything; the memory tier's GetSessionData, however, returns an empty
result but does create an (empty) session record. -/
theorem c10_session_creation (cfg : HybridConfig) (env : Env) (now : Nat)
    (sid name : String) (st : HybridState) (mst : MemState)
    (hm : alistGet sid mst.sessions = none)
    (hmem : alistGet sid st.mem.sessions = none)
    (hd : diskHasSession sid st.disk = false) (hl : sid ∉ st.loading) :
    alistGet sid ((memGetDataframe cfg.memCfg now sid name mst).2).sessions = none
  ∧ (memGetDataframe cfg.memCfg now sid name mst).1 = none
  ∧ alistGet sid ((memGetDataframeSize cfg.memCfg now sid name mst).2).sessions = none
  ∧ alistGet sid ((memGetSessionSize cfg.memCfg now sid mst).2).sessions = none
  ∧ (memHasSession cfg.memCfg now sid mst).1 = false
  ∧ alistGet sid ((memHasSession cfg.memCfg now sid mst).2).sessions = none
  ∧ (memGetSessionData cfg.memCfg now sid mst).1 = []
  ∧ (alistGet sid ((memGetSessionData cfg.memCfg now sid mst).2).sessions).isSome = true
  ∧ hybridGetSessionData cfg env noFaults now sid st = .ok ([], st) := by
  have hpay : memGetPayload cfg.memCfg now sid mst = (none, mst) := by
    unfold memGetPayload
    rw [cacheGet_absent hm]
  have hhas : memHasSession cfg.memCfg now sid mst = (false, mst) := by
    unfold memHasSession
    rw [cacheGet_absent hm]
  refine ⟨?_, ?_, ?_, ?_, ?_, ?_, ?_, ?_, ?_⟩
  · unfold memGetDataframe
    rw [hpay]
    exact hm
  · unfold memGetDataframe
    rw [hpay]
  · unfold memGetDataframeSize
    rw [hpay]
    exact hm
  · unfold memGetSessionSize
    rw [hpay]
    exact hm
  · rw [hhas]
  · rw [hhas]
    exact hm
  · unfold memGetSessionData memEnsurePayload
    rw [cacheGet_absent hm]
  · unfold memGetSessionData memEnsurePayload
    rw [cacheGet_absent hm]
    simp only [memTouch]
    exact cacheSet_lookup_isSome _ _ _ _ _
  · have hhas2 : memHasSession cfg.memCfg now sid st.mem = (false, st.mem) := by
      unfold memHasSession
      rw [cacheGet_absent hmem]
    have hmeta : alistGet sid st.disk.meta = none := by
      unfold diskHasSession alistHas at hd
      cases hmo : alistGet sid st.disk.meta with
      | none => rfl
      | some r => rw [hmo] at hd; simp at hd
    have hload : hybridLoad cfg env noFaults now sid st = (.notLoaded, st) := by
      unfold hybridLoad
      simp [noFaults, hl, hd]
    have hload2 : hybridLoad cfg env noFaults now sid
        { mem := st.mem, disk := st.disk, loading := st.loading } = (.notLoaded, st) := hload
    unfold hybridGetSessionData
    simp only [noFaults] at hload2 hhas2 ⊢
    simp only [Bool.false_eq_true, if_false, hhas2, hload2, diskGetSessionData, hmeta]


/-! ### Claim C9: disk metadata self-healing -/

/-- Is a metadata record decodable? -/
def metaRecIsOk : MetaRecord → Bool
  | .ok _ => true
  | .corrupt _ => false

/-- Item count a record contributes to the stats totals. -/
def metaRecItems : MetaRecord → Nat
  | .ok m => m.itemSizes.length
  | .corrupt _ => 0

/-- Byte count a record contributes to the stats totals. -/
def metaRecBytes : MetaRecord → Nat
  | .ok m => m.totalSizeBytes
  | .corrupt _ => 0

theorem alistGet_eq_of_mem_nodup {κ α : Type} [DecidableEq κ] {k : κ} {v : α}
    {l : List (κ × α)} (hnd : (l.map Prod.fst).Nodup) (hm : (k, v) ∈ l) :
    alistGet k l = some v := by
  induction l with
  | nil => simp at hm
  | cons x xs ih =>
    obtain ⟨a, b⟩ := x
    simp only [List.map_cons, List.nodup_cons] at hnd
    rcases List.mem_cons.mp hm with hh | hh
    · cases hh
      simp
    · have ha : a ≠ k := by
        intro hak
        subst hak
        exact hnd.1 (List.mem_map.mpr ⟨(a, v), hh, rfl⟩)
      simp only [alistGet_cons, if_neg ha]
      exact ih hnd.2 hh

theorem diskAllIdsLoop_ids (l : List (String × MetaRecord)) (st : DiskState) :
    (diskAllIdsLoop l st).1 = (l.filter (fun e => metaRecIsOk e.2)).map Prod.fst := by
  induction l generalizing st with
  | nil => rfl
  | cons x rest ih =>
    obtain ⟨k, rec⟩ := x
    cases rec with
    | ok m =>
      have hfil : List.filter (fun (e : String × MetaRecord) => metaRecIsOk e.2)
          ((k, MetaRecord.ok m) :: rest)
          = (k, MetaRecord.ok m) :: List.filter (fun e => metaRecIsOk e.2) rest := by
        simp [metaRecIsOk]
      rw [hfil, List.map_cons]
      simp only [diskAllIdsLoop]
      rcases hr : diskAllIdsLoop rest st with ⟨ids, st'⟩
      have h2 : ids = (List.filter (fun e => metaRecIsOk e.2) rest).map Prod.fst := by
        have := @ih st
        rw [hr] at this
        exact this
      exact congrArg (List.cons k) h2
    | corrupt df =>
      have hfil : List.filter (fun (e : String × MetaRecord) => metaRecIsOk e.2)
          ((k, MetaRecord.corrupt df) :: rest)
          = List.filter (fun e => metaRecIsOk e.2) rest := by
        simp [metaRecIsOk]
      rw [hfil]
      cases df with
      | true => exact @ih st
      | false => exact @ih { st with meta := alistErase k st.meta }

theorem diskAllIdsLoop_meta_other {l : List (String × MetaRecord)} {st : DiskState}
    {sid : String} (h : sid ∉ l.map Prod.fst) :
    alistGet sid (diskAllIdsLoop l st).2.meta = alistGet sid st.meta := by
  induction l generalizing st with
  | nil => rfl
  | cons x rest ih =>
    obtain ⟨k, rec⟩ := x
    simp only [List.map_cons, List.mem_cons] at h
    push_neg at h
    cases rec with
    | ok m =>
      simp only [diskAllIdsLoop]
      rcases hr : diskAllIdsLoop rest st with ⟨ids, st'⟩
      have h2 := @ih st h.2
      rw [hr] at h2
      exact h2
    | corrupt df =>
      cases df with
      | true => exact @ih st h.2
      | false =>
        have h3 : alistGet sid
            (diskAllIdsLoop rest { st with meta := alistErase k st.meta }).2.meta
            = alistGet sid (alistErase k st.meta) :=
          @ih { st with meta := alistErase k st.meta } h.2
        rw [alistGet_erase_of_ne h.1] at h3
        exact h3

theorem diskAllIdsLoop_heals {l : List (String × MetaRecord)} {st : DiskState}
    {sid : String} (hnd : (l.map Prod.fst).Nodup)
    (hstnd : (st.meta.map Prod.fst).Nodup)
    (hmem : (sid, MetaRecord.corrupt false) ∈ l) :
    alistGet sid (diskAllIdsLoop l st).2.meta = none := by
  induction l generalizing st with
  | nil => simp at hmem
  | cons x rest ih =>
    obtain ⟨k, rec⟩ := x
    simp only [List.map_cons, List.nodup_cons] at hnd
    rcases List.mem_cons.mp hmem with hh | hh
    · have h1 : sid = k := congrArg Prod.fst hh
      subst h1
      have h2 : MetaRecord.corrupt false = rec := congrArg Prod.snd hh
      cases h2
      have h3 : alistGet sid
          (diskAllIdsLoop rest { st with meta := alistErase sid st.meta }).2.meta
          = alistGet sid (alistErase sid st.meta) :=
        diskAllIdsLoop_meta_other hnd.1
      rw [alistGet_erase_self_of_nodup hstnd sid] at h3
      exact h3
    · have hk : k ≠ sid := by
        intro hk
        subst hk
        exact hnd.1 (List.mem_map.mpr ⟨(k, MetaRecord.corrupt false), hh, rfl⟩)
      cases rec with
      | ok m =>
        simp only [diskAllIdsLoop]
        rcases hr : diskAllIdsLoop rest st with ⟨ids, st'⟩
        have h2 := @ih st hnd.2 hstnd hh
        rw [hr] at h2
        exact h2
      | corrupt df =>
        cases df with
        | true => exact @ih st hnd.2 hstnd hh
        | false =>
          exact @ih { st with meta := alistErase k st.meta } hnd.2
            ((alistErase_map_fst_sublist k st.meta).nodup hstnd) hh

theorem diskAllIdsLoop_ok_kept {l : List (String × MetaRecord)} {st : DiskState}
    {sid : String} (h : ∀ df, (sid, MetaRecord.corrupt df) ∉ l) :
    alistGet sid (diskAllIdsLoop l st).2.meta = alistGet sid st.meta := by
  induction l generalizing st with
  | nil => rfl
  | cons x rest ih =>
    obtain ⟨k, rec⟩ := x
    have hrest : ∀ df, (sid, MetaRecord.corrupt df) ∉ rest := by
      intro df hdf
      exact h df (List.mem_cons_of_mem _ hdf)
    cases rec with
    | ok m =>
      simp only [diskAllIdsLoop]
      rcases hr : diskAllIdsLoop rest st with ⟨ids, st'⟩
      have h2 := @ih st hrest
      rw [hr] at h2
      exact h2
    | corrupt df =>
      have hk : k ≠ sid := by
        intro hk
        subst hk
        exact h df (List.mem_cons_self _ _)
      cases df with
      | true => exact @ih st hrest
      | false =>
        have h3 : alistGet sid
            (diskAllIdsLoop rest { st with meta := alistErase k st.meta }).2.meta
            = alistGet sid (alistErase k st.meta) :=
          @ih { st with meta := alistErase k st.meta } hrest
        rw [alistGet_erase_of_ne (Ne.symm hk)] at h3
        exact h3

theorem diskStatsLoop_totals (l : List (String × MetaRecord)) (st : DiskState) :
    (diskStatsLoop l st).1 =
      ⟨l.length, (l.map (fun e => metaRecItems e.2)).sum,
        (l.map (fun e => metaRecBytes e.2)).sum⟩ := by
  induction l generalizing st with
  | nil => rfl
  | cons x rest ih =>
    obtain ⟨k, rec⟩ := x
    cases rec with
    | ok m =>
      simp only [diskStatsLoop]
      rcases hr : diskStatsLoop rest st with ⟨s, st'⟩
      have h2 : s = (⟨rest.length, (rest.map (fun e => metaRecItems e.2)).sum,
          (rest.map (fun e => metaRecBytes e.2)).sum⟩ : StorageStats) := by
        have := @ih st
        rw [hr] at this
        exact this
      subst h2
      simp only [List.length_cons, List.map_cons, List.sum_cons,
        metaRecItems, metaRecBytes, StorageStats.mk.injEq]
      refine ⟨?_, ?_, ?_⟩ <;> first | trivial | omega
    | corrupt df =>
      cases df with
      | true =>
        simp only [diskStatsLoop]
        rcases hr : diskStatsLoop rest st with ⟨s, st'⟩
        have h2 : s = (⟨rest.length, (rest.map (fun e => metaRecItems e.2)).sum,
            (rest.map (fun e => metaRecBytes e.2)).sum⟩ : StorageStats) := by
          have := @ih st
          rw [hr] at this
          exact this
        subst h2
        simp only [List.length_cons, List.map_cons, List.sum_cons,
          metaRecItems, metaRecBytes, StorageStats.mk.injEq]
        refine ⟨?_, ?_, ?_⟩ <;> first | trivial | omega
      | false =>
        simp only [diskStatsLoop]
        rcases hr : diskStatsLoop rest { st with meta := alistErase k st.meta }
          with ⟨s, st'⟩
        have h2 : s = (⟨rest.length, (rest.map (fun e => metaRecItems e.2)).sum,
            (rest.map (fun e => metaRecBytes e.2)).sum⟩ : StorageStats) := by
          have := @ih { st with meta := alistErase k st.meta }
          rw [hr] at this
          exact this
        subst h2
        simp only [List.length_cons, List.map_cons, List.sum_cons,
          metaRecItems, metaRecBytes, StorageStats.mk.injEq]
        refine ⟨?_, ?_, ?_⟩ <;> first | trivial | omega

theorem diskStatsLoop_meta_other {l : List (String × MetaRecord)} {st : DiskState}
    {sid : String} (h : sid ∉ l.map Prod.fst) :
    alistGet sid (diskStatsLoop l st).2.meta = alistGet sid st.meta := by
  induction l generalizing st with
  | nil => rfl
  | cons x rest ih =>
    obtain ⟨k, rec⟩ := x
    simp only [List.map_cons, List.mem_cons] at h
    push_neg at h
    cases rec with
    | ok m =>
      simp only [diskStatsLoop]
      rcases hr : diskStatsLoop rest st with ⟨s, st'⟩
      have h2 := @ih st h.2
      rw [hr] at h2
      exact h2
    | corrupt df =>
      cases df with
      | true =>
        simp only [diskStatsLoop]
        rcases hr : diskStatsLoop rest st with ⟨s, st'⟩
        have h2 := @ih st h.2
        rw [hr] at h2
        exact h2
      | false =>
        simp only [diskStatsLoop]
        rcases hr : diskStatsLoop rest { st with meta := alistErase k st.meta }
          with ⟨s, st'⟩
        have h2 : alistGet sid st'.meta = alistGet sid (alistErase k st.meta) := by
          have := @ih { st with meta := alistErase k st.meta } h.2
          rw [hr] at this
          exact this
        rw [alistGet_erase_of_ne h.1] at h2
        exact h2

theorem diskStatsLoop_heals {l : List (String × MetaRecord)} {st : DiskState}
    {sid : String} (hnd : (l.map Prod.fst).Nodup)
    (hstnd : (st.meta.map Prod.fst).Nodup)
    (hmem : (sid, MetaRecord.corrupt false) ∈ l) :
    alistGet sid (diskStatsLoop l st).2.meta = none := by
  induction l generalizing st with
  | nil => simp at hmem
  | cons x rest ih =>
    obtain ⟨k, rec⟩ := x
    simp only [List.map_cons, List.nodup_cons] at hnd
    rcases List.mem_cons.mp hmem with hh | hh
    · have h1 : sid = k := congrArg Prod.fst hh
      subst h1
      have h2 : MetaRecord.corrupt false = rec := congrArg Prod.snd hh
      cases h2
      simp only [diskStatsLoop]
      rcases hr : diskStatsLoop rest { st with meta := alistErase sid st.meta }
        with ⟨s, st'⟩
      have h3 : alistGet sid st'.meta = alistGet sid (alistErase sid st.meta) := by
        have := @diskStatsLoop_meta_other rest { st with meta := alistErase sid st.meta } _ hnd.1
        rw [hr] at this
        exact this
      rw [alistGet_erase_self_of_nodup hstnd sid] at h3
      exact h3
    · have hk : k ≠ sid := by
        intro hk
        subst hk
        exact hnd.1 (List.mem_map.mpr ⟨(k, MetaRecord.corrupt false), hh, rfl⟩)
      cases rec with
      | ok m =>
        simp only [diskStatsLoop]
        rcases hr : diskStatsLoop rest st with ⟨s, st'⟩
        have h2 := @ih st hnd.2 hstnd hh
        rw [hr] at h2
        exact h2
      | corrupt df =>
        cases df with
        | true =>
          simp only [diskStatsLoop]
          rcases hr : diskStatsLoop rest st with ⟨s, st'⟩
          have h2 := @ih st hnd.2 hstnd hh
          rw [hr] at h2
          exact h2
        | false =>
          simp only [diskStatsLoop]
          rcases hr : diskStatsLoop rest { st with meta := alistErase k st.meta }
            with ⟨s, st'⟩
          have h2 := @ih { st with meta := alistErase k st.meta } hnd.2
            ((alistErase_map_fst_sublist k st.meta).nodup hstnd) hh
          rw [hr] at h2
          exact h2

theorem diskStatsLoop_ok_kept {l : List (String × MetaRecord)} {st : DiskState}
    {sid : String} (h : ∀ df, (sid, MetaRecord.corrupt df) ∉ l) :
    alistGet sid (diskStatsLoop l st).2.meta = alistGet sid st.meta := by
  induction l generalizing st with
  | nil => rfl
  | cons x rest ih =>
    obtain ⟨k, rec⟩ := x
    have hrest : ∀ df, (sid, MetaRecord.corrupt df) ∉ rest := by
      intro df hdf
      exact h df (List.mem_cons_of_mem _ hdf)
    cases rec with
    | ok m =>
      simp only [diskStatsLoop]
      rcases hr : diskStatsLoop rest st with ⟨s, st'⟩
      have h2 := @ih st hrest
      rw [hr] at h2
      exact h2
    | corrupt df =>
      have hk : k ≠ sid := by
        intro hk
        subst hk
        exact h df (List.mem_cons_self _ _)
      cases df with
      | true =>
        simp only [diskStatsLoop]
        rcases hr : diskStatsLoop rest st with ⟨s, st'⟩
        have h2 := @ih st hrest
        rw [hr] at h2
        exact h2
      | false =>
        simp only [diskStatsLoop]
        rcases hr : diskStatsLoop rest { st with meta := alistErase k st.meta }
          with ⟨s, st'⟩
        have h2 : alistGet sid st'.meta = alistGet sid (alistErase k st.meta) := by
          have := @ih { st with meta := alistErase k st.meta } hrest
          rw [hr] at this
          exact this
        rw [alistGet_erase_of_ne (Ne.symm hk)] at h2
        exact h2

/-- C9 counterexample: one undecodable metadata record makes
`get_oldest_sessions` raise — that enumeration has no self-healing
try/except, unlike `get_storage_stats` and `get_all_session_ids`. -/
theorem c9_counterexample :
    diskGetOldestSessions 10
      ⟨[], [("good", .ok ⟨"good", 1, 5, 7, 1, [("x", 7)]⟩), ("bad", .corrupt false)]⟩
      = .error () := rfl

/-- C9 (amended): `get_storage_stats` and `get_all_session_ids` survive an
undecodable metadata record: session-id enumeration returns exactly the
decodable sessions, stats accumulate items/bytes from decodable records
only (though the undecodable record still counts in `total_sessions`,
whose increment precedes the decode), a deletable corrupted record is
absent from the index afterwards, decodable records are untouched, and
both operations complete even when deleting the corrupted record itself
fails; `get_oldest_sessions`, by contrast, decodes records with no handler
and raises (see the counterexample). -/
theorem c9_self_healing (st : DiskState) (sid : String) (m : SessionMetadata) :
    ((diskGetAllSessionIds st).1
      = (st.meta.filter (fun e => metaRecIsOk e.2)).map Prod.fst)
  ∧ ((diskGetStorageStats st).1
      = ⟨st.meta.length, (st.meta.map (fun e => metaRecItems e.2)).sum,
          (st.meta.map (fun e => metaRecBytes e.2)).sum⟩)
  ∧ (DiskWF st → alistGet sid st.meta = some (.corrupt false) →
      alistGet sid (diskGetAllSessionIds st).2.meta = none
      ∧ alistGet sid (diskGetStorageStats st).2.meta = none)
  ∧ (DiskWF st → alistGet sid st.meta = some (.ok m) →
      alistGet sid (diskGetAllSessionIds st).2.meta = some (.ok m)
      ∧ alistGet sid (diskGetStorageStats st).2.meta = some (.ok m)) := by
  refine ⟨diskAllIdsLoop_ids st.meta st, diskStatsLoop_totals st.meta st, ?_, ?_⟩
  · intro hwf hc
    exact ⟨diskAllIdsLoop_heals hwf hwf (alistGet_mem hc),
      diskStatsLoop_heals hwf hwf (alistGet_mem hc)⟩
  · intro hwf hk
    have hno : ∀ df, (sid, MetaRecord.corrupt df) ∉ st.meta := by
      intro df hdf
      have := alistGet_eq_of_mem_nodup hwf hdf
      rw [hk] at this
      simp at this
    refine ⟨?_, ?_⟩
    · unfold diskGetAllSessionIds
      rw [diskAllIdsLoop_ok_kept hno]
      exact hk
    · unfold diskGetStorageStats
      rw [diskStatsLoop_ok_kept hno]
      exact hk

/-- Witness for C9: the self-healing theorem applied to a concrete index
holding one valid and one corrupted record. -/
theorem c9_self_healing_witness :
    alistGet "bad"
      (diskGetAllSessionIds
        ⟨[], [("good", .ok ⟨"good", 1, 5, 7, 1, [("x", 7)]⟩),
              ("bad", .corrupt false)]⟩).2.meta = none
  ∧ alistGet "good"
      (diskGetStorageStats
        ⟨[], [("good", .ok ⟨"good", 1, 5, 7, 1, [("x", 7)]⟩),
              ("bad", .corrupt false)]⟩).2.meta
      = some (.ok ⟨"good", 1, 5, 7, 1, [("x", 7)]⟩) :=
  ⟨((c9_self_healing ⟨[], [("good", .ok ⟨"good", 1, 5, 7, 1, [("x", 7)]⟩),
        ("bad", .corrupt false)]⟩ "bad" ⟨"good", 1, 5, 7, 1, [("x", 7)]⟩).2.2.1
      (by simp [DiskWF]) (by decide)).1,
   ((c9_self_healing ⟨[], [("good", .ok ⟨"good", 1, 5, 7, 1, [("x", 7)]⟩),
        ("bad", .corrupt false)]⟩ "good" ⟨"good", 1, 5, 7, 1, [("x", 7)]⟩).2.2.2
      (by simp [DiskWF]) (by decide)).2⟩

/-- Witness for C10: the amended theorem applied to empty tiers. -/
theorem c10_session_creation_witness :
    (memGetSessionData (⟨⟨100, 10, 5⟩, ⟨1000, 90, true⟩, 90⟩ : HybridConfig).memCfg
        0 "s" ⟨[]⟩).1 = []
  ∧ hybridGetSessionData ⟨⟨100, 10, 5⟩, ⟨1000, 90, true⟩, 90⟩ ⟨50, 10⟩ noFaults 0 "s"
      ⟨⟨[]⟩, ⟨[], []⟩, []⟩ = .ok ([], ⟨⟨[]⟩, ⟨[], []⟩, []⟩) :=
  ⟨(c10_session_creation ⟨⟨100, 10, 5⟩, ⟨1000, 90, true⟩, 90⟩ ⟨50, 10⟩ 0 "s" "df"
      ⟨⟨[]⟩, ⟨[], []⟩, []⟩ ⟨[]⟩ rfl rfl rfl (by simp)).2.2.2.2.2.2.1,
   (c10_session_creation ⟨⟨100, 10, 5⟩, ⟨1000, 90, true⟩, 90⟩ ⟨50, 10⟩ 0 "s" "df"
      ⟨⟨[]⟩, ⟨[], []⟩, []⟩ ⟨[]⟩ rfl rfl rfl (by simp)).2.2.2.2.2.2.2.2⟩

/-! ### Claim C3: write-failure propagation -/

/-- Does an `Except` hold a success? -/
def exceptOk {ε α : Type} : Except ε α → Bool
  | .ok _ => true
  | .error _ => false

theorem hybridRelieveLoop_disk (cfg : HybridConfig) (env : Env) (now required : Nat)
    (cands : List (String × Nat)) (freed : Nat) (st : HybridState) :
    (hybridRelieveLoop cfg env now required cands freed st).disk = st.disk := by
  induction cands generalizing freed st with
  | nil => rfl
  | cons c rest ih =>
    obtain ⟨sid, t⟩ := c
    unfold hybridRelieveLoop
    by_cases hld : sid ∈ st.loading
    · simp only [if_pos hld]
      exact ih _ _
    · simp only [if_neg hld]
      by_cases hb1 : required > 0 ∧ freed + (memGetSessionSize cfg.memCfg now sid st.mem).1 ≥ required
      · simp only [if_pos hb1]
      · simp only [if_neg hb1]
        by_cases hb2 : ¬ hybridCheckMemoryPressure cfg env = true
        · simp only [if_pos hb2]
        · simp only [if_neg hb2]
          exact ih _ _

theorem hybridRelieveLoop_loading (cfg : HybridConfig) (env : Env) (now required : Nat)
    (cands : List (String × Nat)) (freed : Nat) (st : HybridState) :
    (hybridRelieveLoop cfg env now required cands freed st).loading = st.loading := by
  induction cands generalizing freed st with
  | nil => rfl
  | cons c rest ih =>
    obtain ⟨sid, t⟩ := c
    unfold hybridRelieveLoop
    by_cases hld : sid ∈ st.loading
    · simp only [if_pos hld]
      exact ih _ _
    · simp only [if_neg hld]
      by_cases hb1 : required > 0 ∧ freed + (memGetSessionSize cfg.memCfg now sid st.mem).1 ≥ required
      · simp only [if_pos hb1]
      · simp only [if_neg hb1]
        by_cases hb2 : ¬ hybridCheckMemoryPressure cfg env = true
        · simp only [if_pos hb2]
        · simp only [if_neg hb2]
          exact ih _ _

theorem hybridRelieve_disk (cfg : HybridConfig) (env : Env) (now required : Nat)
    (st : HybridState) : (hybridRelieve cfg env now required st).disk = st.disk := by
  unfold hybridRelieve
  rcases hl : memGetOldestSessions cfg.memCfg now 20 st.mem with ⟨oldest, mem'⟩
  exact hybridRelieveLoop_disk cfg env now required oldest 0 { st with mem := mem' }

theorem hybridRelieve_loading (cfg : HybridConfig) (env : Env) (now required : Nat)
    (st : HybridState) : (hybridRelieve cfg env now required st).loading = st.loading := by
  unfold hybridRelieve
  rcases hl : memGetOldestSessions cfg.memCfg now 20 st.mem with ⟨oldest, mem'⟩
  exact hybridRelieveLoop_loading cfg env now required oldest 0 { st with mem := mem' }

theorem diskUpdateMeta_ok {now : Nat} {sid name : String} {size : Nat}
    {st : DiskState} (h : metaCorrupt sid st = false) :
    ∃ st', diskUpdateMeta now sid name size st = .ok st'
      ∧ metaCorrupt sid st' = false ∧ st'.data = st.data := by
  unfold metaCorrupt at h
  unfold diskUpdateMeta
  cases hm : alistGet sid st.meta with
  | none =>
    refine ⟨_, rfl, ?_, rfl⟩
    simp [metaCorrupt, alistGet_alistSet_self]
  | some r =>
    cases r with
    | corrupt df =>
      rw [hm] at h
      simp at h
    | ok m =>
      refine ⟨_, rfl, ?_, rfl⟩
      simp [metaCorrupt, alistGet_alistSet_self]

theorem diskSetDataframe_ok {cfg : DiskConfig} {now : Nat} {sid name : String}
    {v : Value} {st : DiskState} (h : metaCorrupt sid st = false) :
    ∃ st', diskSetDataframe cfg now sid name v st = .ok st'
      ∧ metaCorrupt sid st' = false
      ∧ st'.data = alistSet (sid, name)
          ⟨serializeData cfg.useParquet v, now + cfg.ttlSeconds⟩ st.data := by
  unfold diskSetDataframe
  have h2 : metaCorrupt sid { st with data := alistSet (sid, name) ⟨serializeData cfg.useParquet v, now + cfg.ttlSeconds⟩ st.data } = false := h
  obtain ⟨st', hok, hm, hd⟩ := @diskUpdateMeta_ok now _ name ((serializeData cfg.useParquet v).length) _ h2
  exact ⟨st', hok, hm, hd⟩

theorem diskSetSessionData_ok {cfg : DiskConfig} {now : Nat} {sid : String}
    {data : List (String × Value)} {st : DiskState} (h : metaCorrupt sid st = false) :
    ∃ st', diskSetSessionData cfg now sid data st = .ok st'
      ∧ metaCorrupt sid st' = false := by
  induction data generalizing st with
  | nil => exact ⟨st, rfl, h⟩
  | cons x rest ih =>
    obtain ⟨name, v⟩ := x
    obtain ⟨st₁, hok, hm, -⟩ := @diskSetDataframe_ok cfg now _ name v _ h
    obtain ⟨st₂, hok2, hm2⟩ := @ih st₁ hm
    refine ⟨st₂, ?_, hm2⟩
    unfold diskSetSessionData
    rw [hok]
    exact hok2

/-- C3 (confirmed): a coordinator write raises iff both the memory-tier
write and the disk-tier write raise; with exactly one failing tier the
call succeeds (degraded but available), and the raised error in the
dual-failure case carries both underlying causes.  (The disk tier is
assumed free of a corrupted metadata record for the written session, which
would itself count as a disk-write failure.) -/
theorem c3_write_failure_propagation (cfg : HybridConfig) (env : Env) (fl : Faults)
    (now : Nat) (sid name : String) (v : Value) (data : List (String × Value))
    (st : HybridState) (h : metaCorrupt sid st.disk = false) :
    (exceptOk (hybridSetDataframe cfg env fl now sid name v st) = true
       ↔ ¬(fl.memSet.isSome = true ∧ fl.diskSet.isSome = true))
  ∧ (exceptOk (hybridSetSessionData cfg fl now sid data st) = true
       ↔ ¬(fl.memSet.isSome = true ∧ fl.diskSet.isSome = true))
  ∧ (∀ mc dc, fl.memSet = some mc → fl.diskSet = some dc →
      hybridSetDataframe cfg env fl now sid name v st = .error (.bothFailed mc dc)
      ∧ hybridSetSessionData cfg fl now sid data st = .error (.bothFailed mc dc)) := by
  have hst0 : metaCorrupt sid (if memCanFit env.memPercent sid (estimateDataSize v)
      then st else hybridRelieve cfg env now (estimateDataSize v) st).disk = false := by
    by_cases hc : memCanFit env.memPercent sid (estimateDataSize v) = true
    · simpa [hc] using h
    · simp only [Bool.not_eq_true] at hc
      simp only [hc, Bool.false_eq_true, if_false, hybridRelieve_disk]
      exact h
  refine ⟨?_, ?_, ?_⟩
  · cases hm : fl.memSet with
    | some mc =>
      cases hd : fl.diskSet with
      | some dc => simp [hybridSetDataframe, hm, hd, exceptOk]
      | none =>
        obtain ⟨st', hok, -, -⟩ := @diskSetDataframe_ok cfg.diskCfg now _ name v _ hst0
        simp [hybridSetDataframe, hm, hd, hok, exceptOk]
    | none =>
      cases hd : fl.diskSet with
      | some dc => simp [hybridSetDataframe, hm, hd, exceptOk]
      | none =>
        have hst1 : metaCorrupt sid ({ (if memCanFit env.memPercent sid (estimateDataSize v) then st else hybridRelieve cfg env now (estimateDataSize v) st) with mem := memSetDataframe cfg.memCfg now sid name v (if memCanFit env.memPercent sid (estimateDataSize v) then st else hybridRelieve cfg env now (estimateDataSize v) st).mem }).disk = false := hst0
        obtain ⟨st', hok, -, -⟩ := @diskSetDataframe_ok cfg.diskCfg now _ name v _ hst1
        simp [hybridSetDataframe, hm, hd, hok, exceptOk]
  · cases hm : fl.memSet with
    | some mc =>
      cases hd : fl.diskSet with
      | some dc => simp [hybridSetSessionData, hm, hd, exceptOk]
      | none =>
        obtain ⟨st', hok, -⟩ := @diskSetSessionData_ok cfg.diskCfg now _ data _ h
        simp [hybridSetSessionData, hm, hd, hok, exceptOk]
    | none =>
      cases hd : fl.diskSet with
      | some dc => simp [hybridSetSessionData, hm, hd, exceptOk]
      | none =>
        have hst1 : metaCorrupt sid ({ st with mem := memSetSessionData cfg.memCfg now sid data st.mem }).disk = false := h
        obtain ⟨st', hok, -⟩ := @diskSetSessionData_ok cfg.diskCfg now _ data _ hst1
        simp [hybridSetSessionData, hm, hd, hok, exceptOk]
  · intro mc dc hm hd
    constructor
    · simp [hybridSetDataframe, hm, hd]
    · simp [hybridSetSessionData, hm, hd]

/-- Witness for C3: both tiers fail on a fresh state, producing the
combined error, while a single-tier failure succeeds. -/
theorem c3_write_failure_propagation_witness :
    hybridSetDataframe ⟨⟨100, 10, 5⟩, ⟨1000, 90, true⟩, 90⟩ ⟨50, 10⟩
      ⟨some "mem down", some "disk down", false, false⟩ 1 "S" "df" (.generic [1])
      ⟨⟨[]⟩, ⟨[], []⟩, []⟩ = .error (.bothFailed "mem down" "disk down")
  ∧ exceptOk (hybridSetDataframe ⟨⟨100, 10, 5⟩, ⟨1000, 90, true⟩, 90⟩ ⟨50, 10⟩
      ⟨some "mem down", none, false, false⟩ 1 "S" "df" (.generic [1])
      ⟨⟨[]⟩, ⟨[], []⟩, []⟩) = true :=
  ⟨((c3_write_failure_propagation ⟨⟨100, 10, 5⟩, ⟨1000, 90, true⟩, 90⟩ ⟨50, 10⟩
      ⟨some "mem down", some "disk down", false, false⟩ 1 "S" "df" (.generic [1]) []
      ⟨⟨[]⟩, ⟨[], []⟩, []⟩ rfl).2.2 "mem down" "disk down" rfl rfl).1,
   ((c3_write_failure_propagation ⟨⟨100, 10, 5⟩, ⟨1000, 90, true⟩, 90⟩ ⟨50, 10⟩
      ⟨some "mem down", none, false, false⟩ 1 "S" "df" (.generic [1]) []
      ⟨⟨[]⟩, ⟨[], []⟩, []⟩ rfl).1).mpr (by simp)⟩

/-! ### Claim C2: set/get round trip -/

/-- C2 counterexample: the coordinator's round trip can fail.  With
`maxItemsPerSession = 1`, session "S" holds items "a" and "b" on disk and
only "b" in memory.  Writing the literal string "corrupted_data" (which
`_is_data_valid` rejects) to "a" and reading "a" back returns an absent
result: the memory hit fails validation, the session is evicted and
lazily reloaded whole from disk, the item cap trims "a" away again, and
the read is answered from the reloaded memory copy — as None. -/
theorem c2_counterexample :
    (let cfg : HybridConfig := ⟨⟨100, 10, 1⟩, ⟨1000, 90, true⟩, 90⟩
     let env : Env := ⟨50, 10⟩
     let st0 : HybridState := ⟨⟨[]⟩, ⟨[], []⟩, []⟩
     let st1 := (hybridSetDataframe cfg env noFaults 1 "S" "a" (.generic [1]) st0).toOption.getD st0
     let st2 := (hybridSetDataframe cfg env noFaults 2 "S" "b" (.generic [2]) st1).toOption.getD st1
     let st3 := (hybridSetDataframe cfg env noFaults 3 "S" "a" corruptedValue st2).toOption.getD st2
     exceptOk (hybridSetDataframe cfg env noFaults 3 "S" "a" corruptedValue st2) = true
     ∧ isDataValid corruptedValue = false
     ∧ (hybridGetDataframe cfg env noFaults 4 "S" "a" st3).1 = none) :=
  ⟨rfl, rfl, rfl⟩

theorem deserialize_serialize (useParquet : Bool) (v : Value) :
    deserializeData (useParquet && startsWithPAR1 (serializeData useParquet v))
      (serializeData useParquet v) = v := by
  cases v with
  | tabular b =>
    cases useParquet with
    | false => rfl
    | true =>
      have h1 : startsWithPAR1 (serializeData true (.tabular b)) = true := by
        unfold startsWithPAR1 serializeData
        simp only [if_true]
        exact List.isPrefixOf_iff_prefix.mpr (List.prefix_append _ _)
      unfold deserializeData
      rw [h1]
      simp only [Bool.and_self, if_true]
      unfold serializeData
      simp only [if_true]
      rw [show (4 : Nat) = parquetMagic.length from rfl, List.drop_left]
  | generic b =>
    cases useParquet with
    | false => rfl
    | true => rfl

/-- C2 (amended): `SetItem(S, I, v); GetItem(S, I) = v` holds for the
memory tier (for `maxItemsPerSession ≥ 1`), for the disk tier including
its serialize/deserialize cycle (for a positive disk TTL and no corrupted
metadata record on the session), and for the coordinator for every value
that passes the coordinator's integrity check — every Tabular value and
every Opaque value other than the literal corrupted-data marker.  For the
marker value the coordinator's round trip can return an absent result
(see the counterexample). -/
theorem c2_round_trip :
    (∀ (useParquet : Bool) (v : Value),
      deserializeData (useParquet && startsWithPAR1 (serializeData useParquet v))
        (serializeData useParquet v) = v)
  ∧ (∀ (cfg : MemConfig) (now : Nat) (sid name : String) (v : Value) (st : MemState),
      MemWF st → MemItemsWF st → 1 ≤ cfg.maxItemsPerSession →
      (memGetDataframe cfg now sid name (memSetDataframe cfg now sid name v st)).1
        = some v)
  ∧ (∀ (cfg : DiskConfig) (now : Nat) (sid name : String) (v : Value) (st : DiskState),
      metaCorrupt sid st = false → 1 ≤ cfg.ttlSeconds →
      ∃ st₁ r, diskSetDataframe cfg now sid name v st = .ok st₁
        ∧ diskGetDataframe cfg now sid name st₁ = .ok (some v, r))
  ∧ (∀ (cfg : HybridConfig) (env : Env) (now : Nat) (sid name : String) (v : Value)
        (st : HybridState),
      MemWF st.mem → MemItemsWF st.mem → 1 ≤ cfg.memCfg.maxItemsPerSession →
      isDataValid v = true →
      ∃ st₁, hybridSetDataframe cfg env noFaults now sid name v st = .ok st₁
        ∧ (hybridGetDataframe cfg env noFaults now sid name st₁).1 = some v) := by
  refine ⟨deserialize_serialize, ?_, ?_, ?_⟩
  · -- memory tier
    intro cfg now sid name v st h hi hcap
    obtain ⟨od, c, hod, hlook⟩ := @memSetDataframe_lookup_self cfg now sid name v _ h hi
    have hwf1 : MemWF (memSetDataframe cfg now sid name v st) := memSetDataframe_WF h
    have hx := cacheExpired_cacheSetEntry cfg now
      (⟨enforceItemCap cfg.maxItemsPerSession (od ++ [(name, v)]), c, now⟩ : MemPayload)
    have hg := @memGetDataframe_of_live cfg now sid name _ _ hwf1 hlook hx
    rw [hg.1]
    exact enforceItemCap_lookup_last hcap hod
  · -- disk tier
    intro cfg now sid name v st h httl
    obtain ⟨st₁, hok, hm, hd⟩ := @diskSetDataframe_ok cfg now _ name v st h
    have hlook : alistGet (sid, name) st₁.data =
        some ⟨serializeData cfg.useParquet v, now + cfg.ttlSeconds⟩ := by
      rw [hd]
      exact alistGet_alistSet_self _ _ _
    have hlive : diskEntryLive now
        (⟨serializeData cfg.useParquet v, now + cfg.ttlSeconds⟩ : DiskEntry) = true := by
      unfold diskEntryLive
      simp
      omega
    have hm2 : metaCorrupt sid { st₁ with data := alistSet (sid, name) ⟨serializeData cfg.useParquet v, now + cfg.ttlSeconds⟩ st₁.data } = false := hm
    obtain ⟨st₂, hok2, -, -⟩ := @diskUpdateMeta_ok now _ name ((serializeData cfg.useParquet v).length) _ hm2
    have hget : diskGetDataframe cfg now sid name st₁ = .ok (some v, st₂) := by
      unfold diskGetDataframe
      simp only [hlook, hlive, if_true]
      simp only [hok2]
      rw [deserialize_serialize]
    exact ⟨st₁, st₂, hok, hget⟩
  · -- coordinator
    intro cfg env now sid name v st h hi hcap hvalid
    set dsize := estimateDataSize v with hdsize
    set st₀ := if memCanFit env.memPercent sid dsize then st
      else hybridRelieve cfg env now dsize st with hst₀
    have hwf0 : MemWF st₀.mem := by
      rw [hst₀]
      by_cases hc : memCanFit env.memPercent sid dsize = true
      · simpa [hc] using h
      · simp only [Bool.not_eq_true] at hc
        simp only [hc, Bool.false_eq_true, if_false]
        exact hybridRelieve_WF h
    have hiw0 : MemItemsWF st₀.mem := by
      rw [hst₀]
      by_cases hc : memCanFit env.memPercent sid dsize = true
      · simpa [hc] using hi
      · simp only [Bool.not_eq_true] at hc
        simp only [hc, Bool.false_eq_true, if_false]
        exact hybridRelieve_ItemsWF hi
    -- the write: memory tier succeeds, disk outcome does not matter
    have hkey : ∀ st₁, hybridSetDataframe cfg env noFaults now sid name v st = .ok st₁ →
        st₁.mem = memSetDataframe cfg.memCfg now sid name v st₀.mem := by
      intro st₁ hres
      rcases hds : diskSetDataframe cfg.diskCfg now sid name v st₀.disk with e | d
      · simp [hybridSetDataframe, noFaults, ← hst₀, ← hdsize, hds] at hres
        rw [← hres]
      · simp [hybridSetDataframe, noFaults, ← hst₀, ← hdsize, hds] at hres
        rw [← hres]
    have hexists : ∃ st₁, hybridSetDataframe cfg env noFaults now sid name v st = .ok st₁ := by
      rcases hds : diskSetDataframe cfg.diskCfg now sid name v st₀.disk with e | d
      · refine ⟨{ st₀ with mem := memSetDataframe cfg.memCfg now sid name v st₀.mem }, ?_⟩
        simp [hybridSetDataframe, noFaults, ← hst₀, ← hdsize, hds]
      · refine ⟨{ st₀ with mem := memSetDataframe cfg.memCfg now sid name v st₀.mem, disk := d }, ?_⟩
        simp [hybridSetDataframe, noFaults, ← hst₀, ← hdsize, hds]
    obtain ⟨st₁, hres⟩ := hexists
    have hmem1 : st₁.mem = memSetDataframe cfg.memCfg now sid name v st₀.mem :=
      hkey st₁ hres
    refine ⟨st₁, hres, ?_⟩
    -- the read: memory-first branch returns v
    obtain ⟨od, c, hod, hlook⟩ := @memSetDataframe_lookup_self cfg.memCfg now sid name v _ hwf0 hiw0
    rw [← hmem1] at hlook
    have hwf1 : MemWF st₁.mem := by
      rw [hmem1]
      exact memSetDataframe_WF hwf0
    have hx := cacheExpired_cacheSetEntry cfg.memCfg now
      (⟨enforceItemCap cfg.memCfg.maxItemsPerSession (od ++ [(name, v)]), c, now⟩ : MemPayload)
    have hhs := @memHasSession_of_live cfg.memCfg now sid _ _
      hwf1 hlook hx
    have hwf2 : MemWF (memHasSession cfg.memCfg now sid st₁.mem).2 :=
      memHasSession_WF hwf1
    have hx2 := cacheExpired_cacheSetEntry cfg.memCfg now
      (⟨(⟨enforceItemCap cfg.memCfg.maxItemsPerSession (od ++ [(name, v)]), c, now⟩ : MemPayload).data, (⟨enforceItemCap cfg.memCfg.maxItemsPerSession (od ++ [(name, v)]), c, now⟩ : MemPayload).createdAt, now⟩ : MemPayload)
    have hgd := @memGetDataframe_of_live cfg.memCfg now sid name _ _ hwf2 hhs.2 hx2
    have hbranch : (hybridGetMemBranch cfg noFaults now sid name st₁).1 = some v := by
      unfold hybridGetMemBranch
      rcases hh : memHasSession cfg.memCfg now sid st₁.mem with ⟨b, mem₂⟩
      have hb : b = true := by
        have := hhs.1
        rw [hh] at this
        exact this
      subst hb
      rcases hg : memGetDataframe cfg.memCfg now sid name mem₂ with ⟨o, mem₃⟩
      have ho : o = some v := by
        have h1 : (memGetDataframe cfg.memCfg now sid name mem₂).1
            = alistGet name (enforceItemCap cfg.memCfg.maxItemsPerSession (od ++ [(name, v)])) := by
          have h2 := hgd.1
          rw [hh] at h2
          exact h2
        have h3 : o = alistGet name (enforceItemCap cfg.memCfg.maxItemsPerSession (od ++ [(name, v)])) := by
          rw [← h1, hg]
        rw [h3]
        exact enforceItemCap_lookup_last hcap hod
      subst ho
      simp [hg, noFaults, hvalid]
    unfold hybridGetDataframe
    rcases hb2 : hybridGetMemBranch cfg noFaults now sid name st₁ with ⟨o, st₂⟩
    have ho : o = some v := by
      have := hbranch
      rw [hb2] at this
      exact this
    subst ho
    rfl

/-- Witness for C2: the amended round trip at concrete inputs on fresh
tiers, for each conjunct with hypotheses. -/
theorem c2_round_trip_witness :
    (memGetDataframe ⟨100, 10, 5⟩ 1 "S" "df"
      (memSetDataframe ⟨100, 10, 5⟩ 1 "S" "df" (.generic [7]) ⟨[]⟩)).1
      = some (.generic [7])
  ∧ (∃ st₁ r, diskSetDataframe ⟨1000, 90, true⟩ 1 "S" "df" (.tabular [9]) ⟨[], []⟩
        = .ok st₁
      ∧ diskGetDataframe ⟨1000, 90, true⟩ 1 "S" "df" st₁ = .ok (some (.tabular [9]), r))
  ∧ (∃ st₁, hybridSetDataframe ⟨⟨100, 10, 5⟩, ⟨1000, 90, true⟩, 90⟩ ⟨50, 10⟩ noFaults
        1 "S" "df" (.generic [7]) ⟨⟨[]⟩, ⟨[], []⟩, []⟩ = .ok st₁
      ∧ (hybridGetDataframe ⟨⟨100, 10, 5⟩, ⟨1000, 90, true⟩, 90⟩ ⟨50, 10⟩ noFaults
          1 "S" "df" st₁).1 = some (.generic [7])) :=
  ⟨c2_round_trip.2.1 ⟨100, 10, 5⟩ 1 "S" "df" (.generic [7]) ⟨[]⟩
      (by simp [MemWF]) (by simp [MemItemsWF]) (by decide),
   c2_round_trip.2.2.1 ⟨1000, 90, true⟩ 1 "S" "df" (.tabular [9]) ⟨[], []⟩
      rfl (by decide),
   c2_round_trip.2.2.2 ⟨⟨100, 10, 5⟩, ⟨1000, 90, true⟩, 90⟩ ⟨50, 10⟩ 1 "S" "df"
      (.generic [7]) ⟨⟨[]⟩, ⟨[], []⟩, []⟩ (by simp [MemWF]) (by simp [MemItemsWF])
      (by decide) rfl⟩

/-! ### Claim C4: read-miss totality -/

theorem alistGet_none_of_sublist {κ α : Type} [DecidableEq κ] {k : κ}
    {l' l : List (κ × α)} (hs : l'.Sublist l) (h : alistGet k l = none) :
    alistGet k l' = none := by
  rw [alistGet_eq_none_iff] at h ⊢
  intro hmem
  exact h ((hs.map Prod.fst).subset hmem)

theorem diskUpdateMeta_data {now : Nat} {sid name : String} {size : Nat}
    {st st' : DiskState} (h : diskUpdateMeta now sid name size st = .ok st') :
    st'.data = st.data := by
  unfold diskUpdateMeta at h
  cases hm : alistGet sid st.meta with
  | none =>
    rw [hm] at h
    cases h
    rfl
  | some r =>
    rw [hm] at h
    cases r with
    | corrupt df => cases h
    | ok m =>
      cases h
      rfl

theorem diskSessionDataLoop_not_found {cfg : DiskConfig} {now : Nat}
    {sid name : String} {names : List String} {st : DiskState}
    (hd : diskItemLookup cfg now sid name st = none) :
    ∀ {res}, diskSessionDataLoop cfg now sid names st = .ok res →
      alistGet name res.1 = none ∧ diskItemLookup cfg now sid name res.2 = none := by
  induction names generalizing st with
  | nil =>
    intro res h
    cases h
    exact ⟨rfl, hd⟩
  | cons n rest ih =>
    intro res h
    unfold diskSessionDataLoop at h
    cases hg : alistGet (sid, n) st.data with
    | none =>
      rw [hg] at h
      exact ih hd h
    | some e =>
      rw [hg] at h
      by_cases hlive : diskEntryLive now e = true
      · simp only [hlive, if_true] at h
        have hne : n ≠ name := by
          intro hnn
          subst hnn
          unfold diskItemLookup at hd
          rw [hg] at hd
          simp [hlive] at hd
        cases hum : diskUpdateMeta now sid n e.bytes.length
            { st with data := alistSet (sid, n) ⟨e.bytes, now + cfg.ttlSeconds⟩ st.data } with
        | error u =>
          simp only [hum] at h
          simp at h
        | ok st₂ =>
          simp only [hum] at h
          have hd2 : diskItemLookup cfg now sid name st₂ = none := by
            unfold diskItemLookup at hd ⊢
            rw [diskUpdateMeta_data hum]
            rw [show ({ st with data := alistSet (sid, n) ⟨e.bytes, now + cfg.ttlSeconds⟩ st.data } : DiskState).data = alistSet (sid, n) ⟨e.bytes, now + cfg.ttlSeconds⟩ st.data from rfl]
            rw [alistGet_alistSet_ne _ _ (by
              intro hp
              exact hne (congrArg Prod.snd hp).symm)]
            exact hd
          cases hloop : diskSessionDataLoop cfg now sid rest st₂ with
          | error u =>
            simp only [hloop] at h
            simp at h
          | ok res₂ =>
            obtain ⟨acc, st₃⟩ := res₂
            simp only [hloop] at h
            cases h
            obtain ⟨h1, h2⟩ := ih hd2 hloop
            refine ⟨?_, h2⟩
            simp only [alistGet_cons, if_neg hne]
            exact h1
      · simp only [hlive, Bool.false_eq_true, if_false] at h
        exact ih hd h

theorem diskGetSessionData_not_found {cfg : DiskConfig} {now : Nat}
    {sid name : String} {st : DiskState}
    (hd : diskItemLookup cfg now sid name st = none) :
    ∀ {res}, diskGetSessionData cfg now sid st = .ok res →
      alistGet name res.1 = none ∧ diskItemLookup cfg now sid name res.2 = none := by
  intro res h
  unfold diskGetSessionData at h
  cases hm : alistGet sid st.meta with
  | none =>
    rw [hm] at h
    cases h
    exact ⟨rfl, hd⟩
  | some r =>
    rw [hm] at h
    cases r with
    | corrupt df => cases h
    | ok m => exact diskSessionDataLoop_not_found hd h

theorem hybridDiskFallback_none {cfg : HybridConfig} {now : Nat}
    {sid name : String} {st : HybridState}
    (hd : diskItemLookup cfg.diskCfg now sid name st.disk = none) :
    (hybridDiskFallback cfg noFaults now sid name st).1 = none := by
  unfold hybridDiskFallback
  simp only [noFaults, Bool.false_eq_true, if_false]
  unfold diskItemLookup at hd
  cases hg : alistGet (sid, name) st.disk.data with
  | none =>
    unfold diskGetDataframe
    rw [hg]
  | some e =>
    rw [hg] at hd
    have hlive : diskEntryLive now e = false := by
      by_cases hl : diskEntryLive now e = true
      · simp [hl] at hd
      · simpa using hl
    unfold diskGetDataframe
    rw [hg]
    simp only [hlive, Bool.false_eq_true, if_false]

theorem hybridLoad_none_cases (cfg : HybridConfig) (env : Env) (now : Nat)
    (sid name : String) (stx : HybridState) (hwf : MemWF stx.mem)
    (habs : alistGet sid stx.mem.sessions = none)
    (hd : diskItemLookup cfg.diskCfg now sid name stx.disk = none) :
    (∃ st₂, hybridLoad cfg env noFaults now sid stx = (.loaded, st₂)
        ∧ (memGetDataframe cfg.memCfg now sid name st₂.mem).1 = none
        ∧ diskItemLookup cfg.diskCfg now sid name st₂.disk = none)
    ∨ (∃ r st₂, r ≠ LoadResult.loaded
        ∧ hybridLoad cfg env noFaults now sid stx = (r, st₂)
        ∧ diskItemLookup cfg.diskCfg now sid name st₂.disk = none) := by
  by_cases hld : sid ∈ stx.loading
  · refine Or.inr ⟨.notLoaded, stx, by simp, ?_, hd⟩
    unfold hybridLoad
    simp [hld]
  · have hh : memHasSession cfg.memCfg now sid stx.mem = (false, stx.mem) := by
      unfold memHasSession
      rw [cacheGet_absent habs]
    by_cases hdh : diskHasSession sid stx.disk = true
    · cases hss : diskGetSessionSize sid stx.disk with
      | error u =>
        refine Or.inr ⟨.raised, stx, by simp, ?_, hd⟩
        unfold hybridLoad
        simp [hld, noFaults, hdh, hh, hss]
      | ok ssize =>
        by_cases hcf : memCanFit env.memPercent sid ssize = true
        · cases hsd : diskGetSessionData cfg.diskCfg now sid stx.disk with
          | error u =>
            refine Or.inr ⟨.notLoaded, stx, by simp, ?_, hd⟩
            unfold hybridLoad hybridLoadBody
            simp [hld, noFaults, hdh, hh, hss, hcf, hsd]
          | ok res =>
            obtain ⟨sdata, disk'⟩ := res
            obtain ⟨hk1, hk2⟩ := diskGetSessionData_not_found hd hsd
            by_cases hemp : sdata = []
            · subst hemp
              refine Or.inr ⟨.notLoaded, { stx with disk := disk' }, by simp, ?_, hk2⟩
              unfold hybridLoad hybridLoadBody
              simp [hld, noFaults, hdh, hh, hss, hcf, hsd]
            · refine Or.inl ⟨{ stx with disk := disk', mem := memSetSessionData cfg.memCfg now sid sdata stx.mem }, ?_, ?_, hk2⟩
              · unfold hybridLoad hybridLoadBody
                simp [hld, noFaults, hdh, hh, hss, hcf, hsd, hemp]
              · obtain ⟨c, hlook⟩ := @memSetSessionData_lookup_self cfg.memCfg now sid sdata _ hwf
                have hwf2 : MemWF (memSetSessionData cfg.memCfg now sid sdata stx.mem) :=
                  memSetSessionData_WF hwf
                have hx := cacheExpired_cacheSetEntry cfg.memCfg now
                  (⟨enforceItemCap cfg.memCfg.maxItemsPerSession sdata, c, now⟩ : MemPayload)
                have hgd := @memGetDataframe_of_live cfg.memCfg now sid name _ _ hwf2 hlook hx
                rw [hgd.1]
                exact alistGet_none_of_sublist (enforceItemCap_sublist _ _) hk1
        · refine Or.inr ⟨.notLoaded, hybridRelieve cfg env now ssize stx, by simp, ?_, ?_⟩
          · unfold hybridLoad
            simp only [Bool.not_eq_true] at hcf
            simp [hld, noFaults, hdh, hh, hss, hcf]
          · rw [hybridRelieve_disk]
            exact hd
    · refine Or.inr ⟨.notLoaded, stx, by simp, ?_, hd⟩
      unfold hybridLoad
      have hdh' : diskHasSession sid stx.disk = false := by simpa using hdh
      simp [hld, noFaults, hdh']

/-- C4 (confirmed): when neither tier produces a value — both tiers'
reads raise, or the item is unknown/expired in both — the coordinator's
GetItem returns an absent result and never raises (the embedding of
`get_dataframe` is a total function into an optional value precisely
because the source catches every tier failure). -/
theorem c4_read_miss_totality (cfg : HybridConfig) (env : Env) (now : Nat)
    (sid name : String) (st : HybridState) :
    (∀ fl : Faults, fl.memRead = true → fl.diskRead = true →
       hybridGetDataframe cfg env fl now sid name st = (none, st))
  ∧ (MemWF st.mem →
     memItemLookup now sid name st.mem = none →
     diskItemLookup cfg.diskCfg now sid name st.disk = none →
     (hybridGetDataframe cfg env noFaults now sid name st).1 = none) := by
  constructor
  · intro fl h1 h2
    unfold hybridGetDataframe hybridGetMemBranch hybridLoad hybridDiskFallback
    by_cases hld : sid ∈ st.loading
    · simp [h1, h2, hld]
    · simp [h1, h2, hld]
  · intro hwf hm hd
    cases hsid : alistGet sid st.mem.sessions with
    | none =>
      have hbr : hybridGetMemBranch cfg noFaults now sid name st = (none, st) := by
        unfold hybridGetMemBranch memHasSession
        rw [cacheGet_absent hsid]
        simp [noFaults]
      rcases hybridLoad_none_cases cfg env now sid name st hwf hsid hd with
        ⟨st₂, heq, hv, -⟩ | ⟨r, st₂, hne, heq, hd2⟩
      · unfold hybridGetDataframe
        have hnf : noFaults.memRead = false := rfl
        simp only [hbr, heq, hnf, Bool.false_eq_true, if_false]
        rcases hg2 : memGetDataframe cfg.memCfg now sid name st₂.mem with ⟨o, mem'⟩
        have ho : o = none := by
          have := hv
          rw [hg2] at this
          exact this
        subst ho
        rfl
      · unfold hybridGetDataframe
        simp only [hbr, heq]
        cases r with
        | loaded => exact absurd rfl hne
        | notLoaded => exact hybridDiskFallback_none hd2
        | raised => exact hybridDiskFallback_none hd2
    | some e =>
      by_cases hexp : cacheExpired now e = true
      · -- expired slot: the has-check deletes it, then behave as absent
        have hbr : hybridGetMemBranch cfg noFaults now sid name st
            = (none, { st with mem := ⟨alistErase sid st.mem.sessions⟩ }) := by
          unfold hybridGetMemBranch memHasSession
          rw [cacheGet_of_expired hsid hexp]
          simp [noFaults]
        have hwf2 : MemWF (⟨alistErase sid st.mem.sessions⟩ : MemState) :=
          (alistErase_map_fst_sublist sid st.mem.sessions).nodup hwf
        have habs2 : alistGet sid (⟨alistErase sid st.mem.sessions⟩ : MemState).sessions
            = none := alistGet_erase_self_of_nodup hwf sid
        rcases hybridLoad_none_cases cfg env now sid name
            { st with mem := ⟨alistErase sid st.mem.sessions⟩ } hwf2 habs2 hd with
          ⟨st₂, heq, hv, -⟩ | ⟨r, st₂, hne, heq, hd2⟩
        · unfold hybridGetDataframe
          have hnf : noFaults.memRead = false := rfl
          simp only [hbr, heq, hnf, Bool.false_eq_true, if_false]
          rcases hg2 : memGetDataframe cfg.memCfg now sid name st₂.mem with ⟨o, mem'⟩
          have ho : o = none := by
            have := hv
            rw [hg2] at this
            exact this
          subst ho
          rfl
        · unfold hybridGetDataframe
          simp only [hbr, heq]
          cases r with
          | loaded => exact absurd rfl hne
          | notLoaded => exact hybridDiskFallback_none hd2
          | raised => exact hybridDiskFallback_none hd2
      · -- live slot whose dict does not bind the item
        have hexp' : cacheExpired now e = false := by simpa using hexp
        have hitem : alistGet name e.payload.data = none := by
          unfold memItemLookup at hm
          rw [hsid] at hm
          simpa [hexp'] using hm
        have hhs := @memHasSession_of_live cfg.memCfg now sid _ _
          hwf hsid hexp'
        have hwf1 : MemWF (memHasSession cfg.memCfg now sid st.mem).2 :=
          memHasSession_WF hwf
        have hx1 := cacheExpired_cacheSetEntry cfg.memCfg now
          (⟨e.payload.data, e.payload.createdAt, now⟩ : MemPayload)
        have hgd := @memGetDataframe_of_live cfg.memCfg now sid name _ _ hwf1 hhs.2 hx1
        -- the memory branch falls through with the session still resident
        rcases hh : memHasSession cfg.memCfg now sid st.mem with ⟨b, mem₂⟩
        have hb : b = true := by
          have := hhs.1
          rw [hh] at this
          exact this
        subst hb
        rcases hg : memGetDataframe cfg.memCfg now sid name mem₂ with ⟨o, mem₃⟩
        have ho : o = none := by
          have h1 : (memGetDataframe cfg.memCfg now sid name mem₂).1
              = alistGet name e.payload.data := by
            have h2 := hgd.1
            rw [hh] at h2
            exact h2
          rw [hg] at h1
          rw [show o = (o, mem₃).1 from rfl, h1]
          exact hitem
        subst ho
        have hbr : hybridGetMemBranch cfg noFaults now sid name st
            = (none, { st with mem := mem₃ }) := by
          unfold hybridGetMemBranch
          simp [noFaults, hh, hg]
        -- the fallen-through state still holds the session (touched twice)
        have hlook3 : alistGet sid mem₃.sessions
            = some (cacheSetEntry cfg.memCfg now
                ⟨e.payload.data, e.payload.createdAt, now⟩) := by
          have h2 := hgd.2
          rw [hh] at h2
          rw [hg] at h2
          exact h2
        have hwf3 : MemWF mem₃ := by
          have h3 : MemWF (memGetDataframe cfg.memCfg now sid name mem₂).2 := by
            have h4 : MemWF mem₂ := by
              have := hwf1
              rw [hh] at this
              exact this
            exact memGetDataframe_WF h4
          rw [hg] at h3
          exact h3
        by_cases hld : sid ∈ st.loading
        · -- a session marked loading skips the lazy load entirely and is
          -- answered from direct disk access
          have hload : hybridLoad cfg env noFaults now sid { st with mem := mem₃ }
              = (.notLoaded, { st with mem := mem₃ }) := by
            unfold hybridLoad
            simp [hld]
          unfold hybridGetDataframe
          simp only [hbr, hload]
          exact hybridDiskFallback_none hd
        · by_cases hdh : diskHasSession sid st.disk = true
          · -- lazy load short-circuits: session already memory-resident
            have hh3 := @memHasSession_of_live cfg.memCfg now sid _ _ hwf3 hlook3 (cacheExpired_cacheSetEntry _ _ _)
            rcases hh4 : memHasSession cfg.memCfg now sid mem₃ with ⟨b4, mem₄⟩
            have hb4 : b4 = true := by
              have := hh3.1
              rw [hh4] at this
              exact this
            subst hb4
            have hload : hybridLoad cfg env noFaults now sid { st with mem := mem₃ }
                = (.loaded, { st with mem := mem₄ }) := by
              unfold hybridLoad
              simp [hld, noFaults, hdh, hh4]
            unfold hybridGetDataframe
            have hnf : noFaults.memRead = false := rfl
            simp only [hbr, hload, hnf, Bool.false_eq_true, if_false]
            have hwf4 : MemWF mem₄ := by
              have := @memHasSession_WF cfg.memCfg now sid _ hwf3
              rw [hh4] at this
              exact this
            have hlook4 := hh3.2
            rw [hh4] at hlook4
            have hgd4 := @memGetDataframe_of_live cfg.memCfg now sid name _ _ hwf4
              hlook4 (cacheExpired_cacheSetEntry _ _ _)
            rcases hg5 : memGetDataframe cfg.memCfg now sid name mem₄ with ⟨o5, mem₅⟩
            have ho5 : o5 = none := by
              have h6 := hgd4.1
              rw [hg5] at h6
              rw [show o5 = (o5, mem₅).1 from rfl, h6]
              exact hitem
            subst ho5
            rfl
          · have hdh' : diskHasSession sid st.disk = false := by simpa using hdh
            have hload : hybridLoad cfg env noFaults now sid { st with mem := mem₃ }
                = (.notLoaded, { st with mem := mem₃ }) := by
              unfold hybridLoad
              simp [hld, noFaults, hdh']
            unfold hybridGetDataframe
            simp only [hbr, hload]
            exact hybridDiskFallback_none hd


/-- Witness for C4: both parts at a concrete empty state. -/
theorem c4_read_miss_totality_witness :
    hybridGetDataframe ⟨⟨100, 10, 5⟩, ⟨1000, 90, true⟩, 90⟩ ⟨50, 10⟩
      ⟨none, none, true, true⟩ 0 "s" "df" ⟨⟨[]⟩, ⟨[], []⟩, []⟩
      = (none, ⟨⟨[]⟩, ⟨[], []⟩, []⟩)
  ∧ (hybridGetDataframe ⟨⟨100, 10, 5⟩, ⟨1000, 90, true⟩, 90⟩ ⟨50, 10⟩ noFaults
      0 "s" "df" ⟨⟨[]⟩, ⟨[], []⟩, []⟩).1 = none :=
  ⟨(c4_read_miss_totality ⟨⟨100, 10, 5⟩, ⟨1000, 90, true⟩, 90⟩ ⟨50, 10⟩ 0 "s" "df"
      ⟨⟨[]⟩, ⟨[], []⟩, []⟩).1 ⟨none, none, true, true⟩ rfl rfl,
   (c4_read_miss_totality ⟨⟨100, 10, 5⟩, ⟨1000, 90, true⟩, 90⟩ ⟨50, 10⟩ 0 "s" "df"
      ⟨⟨[]⟩, ⟨[], []⟩, []⟩).2 (by simp [MemWF]) rfl rfl⟩

/-! ### Claim C5: oldest-first ordering and pressure relief -/

theorem memGetPayload_head_live (cfg : MemConfig) (now : Nat) (k : String)
    (e : MemEntry) (L : List (String × MemEntry))
    (hx : cacheExpired now e = false) :
    memGetPayload cfg now k ⟨(k, e) :: L⟩ =
      (some { e.payload with lastAccess := now },
       ⟨L ++ [(k, cacheSetEntry cfg now { e.payload with lastAccess := now })]⟩) := by
  have hget : cacheGet now k (⟨(k, e) :: L⟩ : MemState)
      = (some e.payload, ⟨(k, e) :: L⟩) :=
    cacheGet_of_live (by simp) hx
  have hhas : alistHas k (((k, e) :: L) : List (String × MemEntry)) = true := by
    simp [alistHas]
  unfold memGetPayload
  simp only [hget, memTouch, cacheSet_eq, hhas, if_true]
  simp

theorem memGetPayload_head_expired (cfg : MemConfig) (now : Nat) (k : String)
    (e : MemEntry) (L : List (String × MemEntry))
    (hx : cacheExpired now e = true) :
    memGetPayload cfg now k ⟨(k, e) :: L⟩ = (none, ⟨L⟩) := by
  have hget : cacheGet now k (⟨(k, e) :: L⟩ : MemState)
      = (none, ⟨alistErase k ((k, e) :: L)⟩) :=
    cacheGet_of_expired (by simp) hx
  unfold memGetPayload
  simp only [hget]
  simp

/-- The net effect of the `get_oldest_sessions` enumeration loop over a
snapshot of keys: expired slots are dropped, each live slot is touched
(re-set at the back of the cache, `last_access := now`) and collected with
the refreshed time, preserving the relative order of the live slots. -/
theorem memOldestLoop_spec (cfg : MemConfig) (now : Nat) :
    ∀ (A B : List (String × MemEntry)),
      ((A ++ B).map Prod.fst).Nodup →
      memOldestLoop cfg now (A.map Prod.fst) ⟨A ++ B⟩ =
        ((A.filter (fun e => ¬ cacheExpired now e.2)).map (fun e => (e.1, now)),
         ⟨B ++ (A.filter (fun e => ¬ cacheExpired now e.2)).map
            (fun e => (e.1, cacheSetEntry cfg now
              { e.2.payload with lastAccess := now }))⟩) := by
  intro A
  induction A with
  | nil =>
    intro B h
    simp [memOldestLoop]
  | cons x A' ih =>
    intro B h
    obtain ⟨k, e⟩ := x
    cases hx : cacheExpired now e with
    | true =>
      have h' : ((A' ++ B).map Prod.fst).Nodup := by
        simp only [List.cons_append, List.map_cons, List.nodup_cons] at h
        exact h.2
      have hrec := ih B h'
      simp only [List.map_cons, List.cons_append, memOldestLoop,
        memGetPayload_head_expired cfg now k e (A' ++ B) hx, hrec,
        List.filter_cons, hx]
      simp
    | false =>
      have hperm : ((A' ++ (B ++ [(k, cacheSetEntry cfg now
            { e.payload with lastAccess := now })])).map Prod.fst).Perm
          ((((k, e) :: A') ++ B).map Prod.fst) := by
        simp only [List.map_append, List.map_cons, List.cons_append,
          ← List.append_assoc, List.map_nil]
        exact List.perm_append_singleton _ _
      have h'' : ((A' ++ (B ++ [(k, cacheSetEntry cfg now
            { e.payload with lastAccess := now })])).map Prod.fst).Nodup :=
        (hperm.nodup_iff).mpr h
      have hrec := ih (B ++ [(k, cacheSetEntry cfg now
        { e.payload with lastAccess := now })]) h''
      have hassoc : (A' ++ B) ++ [(k, cacheSetEntry cfg now
            { e.payload with lastAccess := now })]
          = A' ++ (B ++ [(k, cacheSetEntry cfg now
            { e.payload with lastAccess := now })]) := by
        rw [List.append_assoc]
      simp only [List.map_cons, List.cons_append, memOldestLoop,
        memGetPayload_head_live cfg now k e (A' ++ B) hx, hassoc, hrec,
        List.filter_cons, hx]
      simp

/-- `get_oldest_sessions` on a well-formed cache: the collected list is the
live sessions, each stamped with the refreshed time `now`, stably sorted
and truncated; the resulting cache holds exactly the live sessions in
their previous relative order (every one touched). -/
theorem memGetOldestSessions_spec (cfg : MemConfig) (now limit : Nat)
    (st : MemState) (h : MemWF st) :
    memGetOldestSessions cfg now limit st =
      ((stableSortByTime ((memLiveSessions now st).map
          (fun e => (e.1, now)))).take limit,
       ⟨(memLiveSessions now st).map
          (fun e => (e.1, cacheSetEntry cfg now
            { e.2.payload with lastAccess := now }))⟩) := by
  obtain ⟨l⟩ := st
  have h' : ((l ++ []).map Prod.fst).Nodup := by simpa using h
  have hloop := memOldestLoop_spec cfg now l [] h'
  simp only [List.append_nil] at hloop
  unfold memGetOldestSessions memLiveSessions
  simp only [hloop]
  simp

theorem sortInsertByTime_of_le (x : String × Nat) (l : List (String × Nat))
    (h : ∀ y ∈ l, x.2 ≤ y.2) : sortInsertByTime x l = x :: l := by
  cases l with
  | nil => rfl
  | cons y ys =>
    have hy := h y (by simp)
    simp [sortInsertByTime, hy]

/-- Python `list.sort` is stable: sorting an already-sorted list is the
identity. -/
theorem stableSortByTime_sorted (l : List (String × Nat))
    (h : l.Pairwise (fun a b => a.2 ≤ b.2)) : stableSortByTime l = l := by
  induction l with
  | nil => rfl
  | cons x xs ih =>
    rw [List.pairwise_cons] at h
    simp only [stableSortByTime, ih h.2]
    exact sortInsertByTime_of_le x xs h.1

theorem pairwise_snd_le_of_const {l : List (String × Nat)} {t : Nat}
    (h : ∀ x ∈ l, x.2 = t) : l.Pairwise (fun a b => a.2 ≤ b.2) := by
  induction l with
  | nil => exact List.Pairwise.nil
  | cons x xs ih =>
    refine List.Pairwise.cons ?_ (ih (fun y hy => h y (by simp [hy])))
    intro y hy
    rw [h x (by simp), h y (by simp [hy])]

theorem removeKeys_nil (l : List (String × MemEntry)) : removeKeys [] l = l := rfl

theorem removeKeys_cons (k : String) (ks : List String)
    (l : List (String × MemEntry)) :
    removeKeys (k :: ks) l = removeKeys ks (alistErase k l) := rfl

/-- Reading a session's size touches it (re-sets it at the back), but
erasing the session right after gives the same cache as erasing it from
the original state. -/
theorem memGetSessionSize_then_erase {cfg : MemConfig} {now : Nat} {sid : String}
    {st : MemState} (h : MemWF st) :
    alistErase sid ((memGetSessionSize cfg now sid st).2).sessions =
      alistErase sid st.sessions := by
  unfold memGetSessionSize memGetPayload
  cases hl : alistGet sid st.sessions with
  | none => rw [cacheGet_absent hl]
  | some e =>
    cases hx : cacheExpired now e with
    | true =>
      simp only [cacheGet_of_expired hl hx]
      exact alistErase_of_none (alistGet_erase_self_of_nodup h sid)
    | false =>
      have hhas : alistHas sid st.sessions = true := by simp [alistHas, hl]
      simp only [cacheGet_of_live hl hx, memTouch, cacheSet_eq, hhas, if_true]
      rw [alistErase_append_of_none (alistGet_erase_self_of_nodup h sid)]
      simp

/-- The relief loop evicts exactly the sessions of some prefix of its
candidate list (it stops once enough bytes are freed or pressure clears,
and an empty `loading` set means no candidate is skipped). -/
theorem hybridRelieveLoop_prefix (cfg : HybridConfig) (env : Env)
    (now required : Nat) :
    ∀ (cands : List (String × Nat)) (freed : Nat) (st : HybridState),
      st.loading = [] → MemWF st.mem →
      ∃ k, hybridRelieveLoop cfg env now required cands freed st =
        { st with mem := ⟨removeKeys ((cands.take k).map Prod.fst)
            st.mem.sessions⟩ } := by
  intro cands
  induction cands with
  | nil =>
    intro freed st hld hwf
    exact ⟨0, rfl⟩
  | cons c rest ih =>
    intro freed st hld hwf
    obtain ⟨sid, t⟩ := c
    have hni : sid ∉ st.loading := by rw [hld]; simp
    have herase : memRemoveSession sid (memGetSessionSize cfg.memCfg now sid st.mem).2
        = ⟨alistErase sid st.mem.sessions⟩ :=
      congrArg MemState.mk (memGetSessionSize_then_erase hwf)
    by_cases hb1 : required > 0 ∧
        freed + (memGetSessionSize cfg.memCfg now sid st.mem).1 ≥ required
    · refine ⟨1, ?_⟩
      unfold hybridRelieveLoop
      simp only [if_neg hni, if_pos hb1, herase]
      rfl
    · by_cases hb2 : ¬ hybridCheckMemoryPressure cfg env = true
      · refine ⟨1, ?_⟩
        unfold hybridRelieveLoop
        simp only [if_neg hni, if_neg hb1, if_pos hb2, herase]
        rfl
      · have hwf' : MemWF (⟨alistErase sid st.mem.sessions⟩ : MemState) :=
          (alistErase_map_fst_sublist sid st.mem.sessions).nodup hwf
        obtain ⟨k', heq⟩ := ih
          (freed + (memGetSessionSize cfg.memCfg now sid st.mem).1)
          { st with mem := ⟨alistErase sid st.mem.sessions⟩ }
          (by simpa using hld) hwf'
        refine ⟨k' + 1, ?_⟩
        unfold hybridRelieveLoop
        simp only [if_neg hni, if_neg hb1, if_neg hb2, herase, heq,
          List.take_succ_cons, List.map_cons, removeKeys_cons]

/-- `_relieve_memory_pressure` = enumerate the oldest sessions (touching
each) and then evict the sessions of some prefix of that ordering. -/
theorem hybridRelieve_prefix (cfg : HybridConfig) (env : Env)
    (now required : Nat) (st : HybridState)
    (hld : st.loading = []) (hwf : MemWF st.mem) :
    ∃ k, hybridRelieve cfg env now required st =
      { st with mem := ⟨removeKeys
          ((((memGetOldestSessions cfg.memCfg now 20 st.mem).1).take k).map Prod.fst)
          ((memGetOldestSessions cfg.memCfg now 20 st.mem).2).sessions⟩ } := by
  have hwf' : MemWF (memGetOldestSessions cfg.memCfg now 20 st.mem).2 :=
    memGetOldestSessions_WF hwf
  obtain ⟨k, heq⟩ := hybridRelieveLoop_prefix cfg env now required
    (memGetOldestSessions cfg.memCfg now 20 st.mem).1 0
    { st with mem := (memGetOldestSessions cfg.memCfg now 20 st.mem).2 }
    (by simpa using hld) hwf'
  refine ⟨k, ?_⟩
  unfold hybridRelieve
  simp only [heq]

/-- **C5** (oldest-first ordering): on a well-formed memory tier whose
cache order agrees with ascending last-access order (the invariant every
touch and write re-establishes), `get_oldest_sessions` returns at most
`limit` sessions whose ids are exactly the live sessions stably sorted
ascending by the last-access times as they stood when the call was made;
the enumeration leaves the surviving sessions in that same relative order
(so which session is least recently accessed is unchanged); and the
coordinator's pressure relief evicts exactly the sessions of some prefix
of that ordering (the head first). -/
theorem c5_oldest_first (mcfg : MemConfig) (cfg : HybridConfig) (env : Env)
    (now limit required : Nat) (st : MemState) (hst : HybridState)
    (hwf : MemWF st) (hord : MemOrdered st)
    (hld : hst.loading = []) (hwfh : MemWF hst.mem) :
    ((memGetOldestSessions mcfg now limit st).1.map Prod.fst
        = specOldestSessions now limit st
      ∧ (memGetOldestSessions mcfg now limit st).1.length ≤ limit)
    ∧ (memGetOldestSessions mcfg now limit st).2.sessions.map Prod.fst
        = (memLiveSessions now st).map Prod.fst
    ∧ (∃ k, hybridRelieve cfg env now required hst =
        { hst with mem := ⟨removeKeys
            ((((memGetOldestSessions cfg.memCfg now 20 hst.mem).1).take k).map
              Prod.fst)
            ((memGetOldestSessions cfg.memCfg now 20 hst.mem).2).sessions⟩ }) := by
  have hspec := memGetOldestSessions_spec mcfg now limit st hwf
  have hconst : ∀ x ∈ (memLiveSessions now st).map (fun e => (e.1, now)),
      x.2 = now := by
    intro x hx
    obtain ⟨e, he, rfl⟩ := List.mem_map.mp hx
    rfl
  have hsort1 : stableSortByTime ((memLiveSessions now st).map (fun e => (e.1, now)))
      = (memLiveSessions now st).map (fun e => (e.1, now)) :=
    stableSortByTime_sorted _ (pairwise_snd_le_of_const hconst)
  have hp : st.sessions.Pairwise
      (fun a b => a.2.payload.lastAccess ≤ b.2.payload.lastAccess) :=
    List.pairwise_map.mp hord
  have hpf : (memLiveSessions now st).Pairwise
      (fun a b => a.2.payload.lastAccess ≤ b.2.payload.lastAccess) := by
    unfold memLiveSessions
    exact hp.filter _
  have hp2 : ((memLiveSessions now st).map
      (fun e => (e.1, e.2.payload.lastAccess))).Pairwise
      (fun a b => a.2 ≤ b.2) :=
    List.pairwise_map.mpr hpf
  have hsort2 : stableSortByTime ((memLiveSessions now st).map
        (fun e => (e.1, e.2.payload.lastAccess)))
      = (memLiveSessions now st).map (fun e => (e.1, e.2.payload.lastAccess)) :=
    stableSortByTime_sorted _ hp2
  refine ⟨⟨?_, ?_⟩, ?_,
    hybridRelieve_prefix cfg env now required hst hld hwfh⟩
  · rw [hspec]
    unfold specOldestSessions
    rw [hsort1, hsort2]
    simp only [List.map_take, List.map_map]
    exact congrArg (List.take limit) (List.map_congr_left (fun a _ => rfl))
  · rw [hspec]
    simp [List.length_take]
  · rw [hspec]
    simp [List.map_map]

/-- Witness for C5: a three-session tier with last-access times 10, 20,
30, enumerated and relieved at time 50. -/
theorem c5_oldest_first_witness :
    MemWF (⟨[("s1", ⟨⟨[], 1, 10⟩, some 110⟩), ("s2", ⟨⟨[], 2, 20⟩, some 120⟩),
        ("s3", ⟨⟨[], 3, 30⟩, some 130⟩)]⟩ : MemState)
  ∧ MemOrdered (⟨[("s1", ⟨⟨[], 1, 10⟩, some 110⟩), ("s2", ⟨⟨[], 2, 20⟩, some 120⟩),
        ("s3", ⟨⟨[], 3, 30⟩, some 130⟩)]⟩ : MemState)
  ∧ (((memGetOldestSessions ⟨100, 10, 5⟩ 50 2
        ⟨[("s1", ⟨⟨[], 1, 10⟩, some 110⟩), ("s2", ⟨⟨[], 2, 20⟩, some 120⟩),
          ("s3", ⟨⟨[], 3, 30⟩, some 130⟩)]⟩).1.map Prod.fst
        = specOldestSessions 50 2
            ⟨[("s1", ⟨⟨[], 1, 10⟩, some 110⟩), ("s2", ⟨⟨[], 2, 20⟩, some 120⟩),
              ("s3", ⟨⟨[], 3, 30⟩, some 130⟩)]⟩
      ∧ (memGetOldestSessions ⟨100, 10, 5⟩ 50 2
          ⟨[("s1", ⟨⟨[], 1, 10⟩, some 110⟩), ("s2", ⟨⟨[], 2, 20⟩, some 120⟩),
            ("s3", ⟨⟨[], 3, 30⟩, some 130⟩)]⟩).1.length ≤ 2)
    ∧ (memGetOldestSessions ⟨100, 10, 5⟩ 50 2
          ⟨[("s1", ⟨⟨[], 1, 10⟩, some 110⟩), ("s2", ⟨⟨[], 2, 20⟩, some 120⟩),
            ("s3", ⟨⟨[], 3, 30⟩, some 130⟩)]⟩).2.sessions.map Prod.fst
        = (memLiveSessions 50
            ⟨[("s1", ⟨⟨[], 1, 10⟩, some 110⟩), ("s2", ⟨⟨[], 2, 20⟩, some 120⟩),
              ("s3", ⟨⟨[], 3, 30⟩, some 130⟩)]⟩).map Prod.fst
    ∧ (∃ k, hybridRelieve ⟨⟨100, 10, 5⟩, ⟨1000, 90, true⟩, 90⟩ ⟨95, 10⟩ 50 0
          ⟨⟨[("s1", ⟨⟨[], 1, 10⟩, some 110⟩), ("s2", ⟨⟨[], 2, 20⟩, some 120⟩),
            ("s3", ⟨⟨[], 3, 30⟩, some 130⟩)]⟩, ⟨[], []⟩, []⟩ =
        { (⟨⟨[("s1", ⟨⟨[], 1, 10⟩, some 110⟩), ("s2", ⟨⟨[], 2, 20⟩, some 120⟩),
              ("s3", ⟨⟨[], 3, 30⟩, some 130⟩)]⟩, ⟨[], []⟩, []⟩ : HybridState) with
            mem := ⟨removeKeys
              ((((memGetOldestSessions ⟨100, 10, 5⟩ 50 20
                  ⟨[("s1", ⟨⟨[], 1, 10⟩, some 110⟩), ("s2", ⟨⟨[], 2, 20⟩, some 120⟩),
                    ("s3", ⟨⟨[], 3, 30⟩, some 130⟩)]⟩).1).take k).map Prod.fst)
              ((memGetOldestSessions ⟨100, 10, 5⟩ 50 20
                  ⟨[("s1", ⟨⟨[], 1, 10⟩, some 110⟩), ("s2", ⟨⟨[], 2, 20⟩, some 120⟩),
                    ("s3", ⟨⟨[], 3, 30⟩, some 130⟩)]⟩).2).sessions⟩ })) := by
  have hwf : MemWF (⟨[("s1", ⟨⟨[], 1, 10⟩, some 110⟩),
      ("s2", ⟨⟨[], 2, 20⟩, some 120⟩),
      ("s3", ⟨⟨[], 3, 30⟩, some 130⟩)]⟩ : MemState) := by
    unfold MemWF
    decide
  have hord : MemOrdered (⟨[("s1", ⟨⟨[], 1, 10⟩, some 110⟩),
      ("s2", ⟨⟨[], 2, 20⟩, some 120⟩),
      ("s3", ⟨⟨[], 3, 30⟩, some 130⟩)]⟩ : MemState) := by
    unfold MemOrdered
    decide
  exact ⟨hwf, hord,
    c5_oldest_first ⟨100, 10, 5⟩ ⟨⟨100, 10, 5⟩, ⟨1000, 90, true⟩, 90⟩ ⟨95, 10⟩
      50 2 0
      ⟨[("s1", ⟨⟨[], 1, 10⟩, some 110⟩), ("s2", ⟨⟨[], 2, 20⟩, some 120⟩),
        ("s3", ⟨⟨[], 3, 30⟩, some 130⟩)]⟩
      ⟨⟨[("s1", ⟨⟨[], 1, 10⟩, some 110⟩), ("s2", ⟨⟨[], 2, 20⟩, some 120⟩),
        ("s3", ⟨⟨[], 3, 30⟩, some 130⟩)]⟩, ⟨[], []⟩, []⟩
      hwf hord rfl hwf⟩

/-! ### Claim C1: whole-session residency -/

theorem enforceItemCap_of_le {m : Nat} {l : List (String × Value)}
    (h : l.length ≤ m) : enforceItemCap m l = l := by
  cases l with
  | nil => rfl
  | cons x xs =>
    have hc : ¬ xs.length + 1 > m := by
      simp only [List.length_cons] at h
      omega
    simp [enforceItemCap, hc]

theorem diskGetSessionSize_ok {sid : String} {st : DiskState}
    (h : metaCorrupt sid st = false) : ∃ n, diskGetSessionSize sid st = .ok n := by
  unfold metaCorrupt at h
  cases hm : alistGet sid st.meta with
  | none => exact ⟨0, by simp [diskGetSessionSize, hm]⟩
  | some r =>
    cases r with
    | corrupt d =>
      rw [hm] at h
      simp at h
    | ok m => exact ⟨m.totalSizeBytes, by simp [diskGetSessionSize, hm]⟩

theorem alistGet_touched_map (cfg : MemConfig) (now : Nat) (sid' : String)
    (l : List (String × MemEntry)) :
    alistGet sid' (l.map (fun e => (e.1, cacheSetEntry cfg now
        { e.2.payload with lastAccess := now })))
      = (alistGet sid' l).map (fun e => cacheSetEntry cfg now
        { e.payload with lastAccess := now }) := by
  induction l with
  | nil => rfl
  | cons x xs ih =>
    obtain ⟨k, e⟩ := x
    by_cases hk : k = sid'
    · simp [hk]
    · simp [hk, ih]

theorem alistGet_live_or_none {now : Nat} {st : MemState} (hwf : MemWF st)
    (k : String) :
    alistGet k (memLiveSessions now st) = alistGet k st.sessions
      ∨ alistGet k (memLiveSessions now st) = none := by
  cases hf : alistGet k (memLiveSessions now st) with
  | none => exact Or.inr rfl
  | some v =>
    left
    have hmem : (k, v) ∈ memLiveSessions now st := alistGet_mem hf
    have hmem' : (k, v) ∈ st.sessions := by
      unfold memLiveSessions at hmem
      exact (List.mem_filter.mp hmem).1
    exact (alistGet_eq_of_mem_nodup hwf hmem').symm

theorem alistGet_removeKeys_or_none :
    ∀ (ks : List String) (l : List (String × MemEntry)),
      (l.map Prod.fst).Nodup → ∀ k,
      alistGet k (removeKeys ks l) = alistGet k l
        ∨ alistGet k (removeKeys ks l) = none := by
  intro ks
  induction ks with
  | nil =>
    intro l hnd k
    exact Or.inl rfl
  | cons a ks ih =>
    intro l hnd k
    rw [removeKeys_cons]
    have hnd' : ((alistErase a l).map Prod.fst).Nodup :=
      (alistErase_map_fst_sublist a l).nodup hnd
    rcases ih (alistErase a l) hnd' k with h | h
    · rw [h]
      by_cases ha : a = k
      · subst ha
        exact Or.inr (alistGet_erase_self_of_nodup hnd a)
      · exact Or.inl (alistGet_erase_of_ne (fun hh => ha hh.symm))
    · exact Or.inr h

/-- Pressure relief acts on whole sessions in the memory tier: after a
relief pass every session's item dict is either untouched or gone. -/
theorem hybridRelieve_session_items (cfg : HybridConfig) (env : Env)
    (now required : Nat) (hst : HybridState) (sid' : String)
    (hld : hst.loading = []) (hwf : MemWF hst.mem) :
    memSessionItems sid' (hybridRelieve cfg env now required hst).mem
        = memSessionItems sid' hst.mem
      ∨ memSessionItems sid' (hybridRelieve cfg env now required hst).mem
        = none := by
  obtain ⟨k, heq⟩ := hybridRelieve_prefix cfg env now required hst hld hwf
  rw [heq]
  have hspec := memGetOldestSessions_spec cfg.memCfg now 20 hst.mem hwf
  have hsess : ((memGetOldestSessions cfg.memCfg now 20 hst.mem).2).sessions
      = (memLiveSessions now hst.mem).map (fun e => (e.1, cacheSetEntry cfg.memCfg
          now { e.2.payload with lastAccess := now })) := by
    rw [hspec]
  have hndl : ((memLiveSessions now hst.mem).map Prod.fst).Nodup := by
    unfold memLiveSessions
    exact ((List.filter_sublist _).map Prod.fst).nodup hwf
  have hndt : (((memLiveSessions now hst.mem).map (fun e => (e.1,
      cacheSetEntry cfg.memCfg now { e.2.payload with lastAccess := now }))).map
        Prod.fst).Nodup := by
    have hmm : ((memLiveSessions now hst.mem).map (fun e => (e.1,
        cacheSetEntry cfg.memCfg now
          { e.2.payload with lastAccess := now }))).map Prod.fst
        = (memLiveSessions now hst.mem).map Prod.fst := by
      rw [List.map_map]
      exact List.map_congr_left (fun a _ => rfl)
    rw [hmm]
    exact hndl
  rcases alistGet_removeKeys_or_none
      ((((memGetOldestSessions cfg.memCfg now 20 hst.mem).1).take k).map Prod.fst)
      ((memLiveSessions now hst.mem).map (fun e => (e.1, cacheSetEntry cfg.memCfg
        now { e.2.payload with lastAccess := now }))) hndt sid' with h1 | h1
  · have hx : memSessionItems sid' (⟨removeKeys
        ((((memGetOldestSessions cfg.memCfg now 20 hst.mem).1).take k).map Prod.fst)
        ((memGetOldestSessions cfg.memCfg now 20 hst.mem).2).sessions⟩ : MemState)
        = (alistGet sid' (memLiveSessions now hst.mem)).map
            (fun e => e.payload.data) := by
      unfold memSessionItems
      simp only [hsess, h1, alistGet_touched_map]
      cases alistGet sid' (memLiveSessions now hst.mem) <;> rfl
    rcases alistGet_live_or_none hwf sid' with h3 | h3
    · left
      rw [hx, h3]
      rfl
    · right
      rw [hx, h3]
      rfl
  · right
    unfold memSessionItems
    show ((alistGet sid' (removeKeys
        ((((memGetOldestSessions cfg.memCfg now 20 hst.mem).1).take k).map Prod.fst)
        ((memGetOldestSessions cfg.memCfg now 20 hst.mem).2).sessions))).map
          (fun e => e.payload.data) = none
    rw [hsess, h1]
    rfl

/-- `_load_session_from_disk` under the per-session item cap: when the
whole disk session fits the cap, a `True` return means every item of the
session is now memory-resident, and a `False` return leaves memory without
the session entirely. -/
theorem hybridLoad_whole_session (cfg : HybridConfig) (env : Env) (now : Nat)
    (sid : String) (hst : HybridState) (sdata : List (String × Value))
    (disk' : DiskState) (hni : sid ∉ hst.loading) (hwf : MemWF hst.mem)
    (habs : alistGet sid hst.mem.sessions = none)
    (hnc : metaCorrupt sid hst.disk = false)
    (hget : diskGetSessionData cfg.diskCfg now sid hst.disk = .ok (sdata, disk'))
    (hcap : sdata.length ≤ cfg.memCfg.maxItemsPerSession) :
    (∀ st₂, hybridLoad cfg env noFaults now sid hst = (.loaded, st₂) →
        memSessionItems sid st₂.mem = some sdata)
    ∧ (∀ st₂, hybridLoad cfg env noFaults now sid hst = (.notLoaded, st₂) →
        memSessionItems sid st₂.mem = none) := by
  have hh : memHasSession cfg.memCfg now sid hst.mem = (false, hst.mem) := by
    unfold memHasSession
    rw [cacheGet_absent habs]
  have hitems0 : memSessionItems sid hst.mem = none := by
    unfold memSessionItems
    rw [habs]
    rfl
  by_cases hdh : diskHasSession sid hst.disk = true
  · obtain ⟨n, hss⟩ := diskGetSessionSize_ok hnc
    by_cases hcf : memCanFit env.memPercent sid n = true
    · by_cases hemp : sdata = []
      · subst hemp
        have hload : hybridLoad cfg env noFaults now sid hst
            = (.notLoaded, { hst with disk := disk' }) := by
          unfold hybridLoad hybridLoadBody
          simp [hni, noFaults, hdh, hh, hss, hcf, hget]
        constructor
        · intro st₂ h2
          rw [hload] at h2
          simp at h2
        · intro st₂ h2
          rw [hload] at h2
          have h3 : ({ hst with disk := disk' } : HybridState) = st₂ :=
            congrArg Prod.snd h2
          rw [← h3]
          exact hitems0
      · have hload : hybridLoad cfg env noFaults now sid hst
            = (.loaded, { hst with disk := disk', mem := memSetSessionData cfg.memCfg now sid sdata hst.mem }) := by
          unfold hybridLoad hybridLoadBody
          simp [hni, noFaults, hdh, hh, hss, hcf, hget, hemp]
        constructor
        · intro st₂ h2
          rw [hload] at h2
          have h3 : ({ hst with disk := disk', mem := memSetSessionData cfg.memCfg now sid sdata hst.mem } : HybridState) = st₂ :=
            congrArg Prod.snd h2
          rw [← h3]
          obtain ⟨c, hlook⟩ := @memSetSessionData_lookup_self cfg.memCfg now sid sdata _ hwf
          unfold memSessionItems
          show ((alistGet sid
              (memSetSessionData cfg.memCfg now sid sdata hst.mem).sessions)).map
            (fun e => e.payload.data) = some sdata
          rw [hlook]
          simp [cacheSetEntry, enforceItemCap_of_le hcap]
        · intro st₂ h2
          rw [hload] at h2
          simp at h2
    · have hload : hybridLoad cfg env noFaults now sid hst
          = (.notLoaded, hybridRelieve cfg env now n hst) := by
        unfold hybridLoad
        simp only [Bool.not_eq_true] at hcf
        simp [hni, noFaults, hdh, hh, hss, hcf]
      constructor
      · intro st₂ h2
        rw [hload] at h2
        simp at h2
      · intro st₂ h2
        rw [hload] at h2
        have h3 : hybridRelieve cfg env now n hst = st₂ := congrArg Prod.snd h2
        rw [← h3]
        unfold memSessionItems
        rw [hybridRelieve_absent_preserved habs]
        rfl
  · have hdh' : diskHasSession sid hst.disk = false := by simpa using hdh
    have hload : hybridLoad cfg env noFaults now sid hst = (.notLoaded, hst) := by
      unfold hybridLoad
      simp [hni, noFaults, hdh']
    constructor
    · intro st₂ h2
      rw [hload] at h2
      simp at h2
    · intro st₂ h2
      rw [hload] at h2
      have h3 : hst = st₂ := congrArg Prod.snd h2
      rw [← h3]
      exact hitems0

/-- C1 counterexample: with `maxItemsPerSession = 1`, writing items "a"
then "b" to session S through the coordinator leaves the memory tier
holding exactly item "b" while the disk tier has both committed — a
nonempty proper subset is memory-resident; and a later read miss on "a"
lazily loads the whole session only to have the cap trim it back to the
single item "b", again a proper subset. -/
theorem c1_counterexample :
    (let cfg : HybridConfig := ⟨⟨100, 10, 1⟩, ⟨1000, 90, true⟩, 90⟩
     let env : Env := ⟨50, 10⟩
     let st0 : HybridState := ⟨⟨[]⟩, ⟨[], []⟩, []⟩
     let st1 := (hybridSetDataframe cfg env noFaults 1 "S" "a" (.generic [1])
       st0).toOption.getD st0
     let st2 := (hybridSetDataframe cfg env noFaults 2 "S" "b" (.generic [2])
       st1).toOption.getD st1
     let st3 := (hybridGetDataframe cfg env noFaults 200 "S" "a" st2).2
     (memSessionItems "S" st2.mem = some [("b", .generic [2])]
        ∧ diskMetaItemNames "S" st2.disk = ["a", "b"])
     ∧ (memSessionItems "S" st3.mem = some [("b", .generic [2])]
        ∧ diskMetaItemNames "S" st3.disk = ["a", "b"])) :=
  ⟨⟨rfl, rfl⟩, ⟨rfl, rfl⟩⟩

/-- C1 (amended): the whole-session invariant holds for pressure relief
(a relief pass leaves every session's memory-resident item dict either
untouched or entirely gone), and a lazy load copies every item of the
disk session into memory — or leaves memory without the session — *when
the session fits within `maxItemsPerSession`*; a session larger than the
cap, which exists whenever items were written one at a time past the cap
(see the counterexample), is trimmed to its newest items on load, and
ordinary per-item writes likewise leave memory holding a proper subset of
the committed items. -/
theorem c1_whole_session :
    (∀ (cfg : HybridConfig) (env : Env) (now required : Nat)
        (hst : HybridState) (sid' : String),
      hst.loading = [] → MemWF hst.mem →
      memSessionItems sid' (hybridRelieve cfg env now required hst).mem
          = memSessionItems sid' hst.mem
        ∨ memSessionItems sid' (hybridRelieve cfg env now required hst).mem
          = none)
  ∧ (∀ (cfg : HybridConfig) (env : Env) (now : Nat) (sid : String)
        (hst : HybridState) (sdata : List (String × Value)) (disk' : DiskState),
      sid ∉ hst.loading → MemWF hst.mem →
      alistGet sid hst.mem.sessions = none →
      metaCorrupt sid hst.disk = false →
      diskGetSessionData cfg.diskCfg now sid hst.disk = .ok (sdata, disk') →
      sdata.length ≤ cfg.memCfg.maxItemsPerSession →
      (∀ st₂, hybridLoad cfg env noFaults now sid hst = (.loaded, st₂) →
          memSessionItems sid st₂.mem = some sdata)
      ∧ (∀ st₂, hybridLoad cfg env noFaults now sid hst = (.notLoaded, st₂) →
          memSessionItems sid st₂.mem = none)) :=
  ⟨fun cfg env now required hst sid' hld hwf =>
      hybridRelieve_session_items cfg env now required hst sid' hld hwf,
   fun cfg env now sid hst sdata disk' hni hwf habs hnc hget hcap =>
      hybridLoad_whole_session cfg env now sid hst sdata disk' hni hwf habs hnc
        hget hcap⟩

/-- Witness for C1: a relief pass over a one-session tier, and a lazy
load of a one-item disk session into an empty memory tier (the item cap
is 5, so the session fits and is copied whole). -/
theorem c1_whole_session_witness :
    (memSessionItems "X" (hybridRelieve ⟨⟨100, 10, 5⟩, ⟨1000, 90, true⟩, 90⟩
          ⟨95, 10⟩ 5 0
          ⟨⟨[("X", ⟨⟨[("x", .generic [1])], 0, 0⟩, some 100⟩)]⟩, ⟨[], []⟩, []⟩).mem
        = memSessionItems "X"
            (⟨⟨[("X", ⟨⟨[("x", .generic [1])], 0, 0⟩, some 100⟩)]⟩,
              ⟨[], []⟩, []⟩ : HybridState).mem
      ∨ memSessionItems "X" (hybridRelieve ⟨⟨100, 10, 5⟩, ⟨1000, 90, true⟩, 90⟩
          ⟨95, 10⟩ 5 0
          ⟨⟨[("X", ⟨⟨[("x", .generic [1])], 0, 0⟩, some 100⟩)]⟩, ⟨[], []⟩, []⟩).mem
        = none)
  ∧ memSessionItems "S" (hybridLoad ⟨⟨100, 10, 5⟩, ⟨1000, 90, true⟩, 90⟩ ⟨50, 10⟩
        noFaults 2 "S"
        ⟨⟨[]⟩, (diskSetDataframe ⟨1000, 90, true⟩ 1 "S" "a" (.generic [1])
          ⟨[], []⟩).toOption.getD ⟨[], []⟩, []⟩).2.mem
      = some [("a", .generic [1])] := by
  have hwfx : MemWF (⟨[("X", ⟨⟨[("x", .generic [1])], 0, 0⟩, some 100⟩)]⟩
      : MemState) := by
    unfold MemWF
    decide
  refine ⟨c1_whole_session.1 ⟨⟨100, 10, 5⟩, ⟨1000, 90, true⟩, 90⟩ ⟨95, 10⟩ 5 0
      ⟨⟨[("X", ⟨⟨[("x", .generic [1])], 0, 0⟩, some 100⟩)]⟩, ⟨[], []⟩, []⟩ "X"
      rfl hwfx, ?_⟩
  exact (c1_whole_session.2 ⟨⟨100, 10, 5⟩, ⟨1000, 90, true⟩, 90⟩ ⟨50, 10⟩ 2 "S"
      ⟨⟨[]⟩, (diskSetDataframe ⟨1000, 90, true⟩ 1 "S" "a" (.generic [1])
        ⟨[], []⟩).toOption.getD ⟨[], []⟩, []⟩
      [("a", .generic [1])] _
      (by simp) (by simp [MemWF]) rfl rfl rfl (by decide)).1
    (hybridLoad ⟨⟨100, 10, 5⟩, ⟨1000, 90, true⟩, 90⟩ ⟨50, 10⟩ noFaults 2 "S"
      ⟨⟨[]⟩, (diskSetDataframe ⟨1000, 90, true⟩ 1 "S" "a" (.generic [1])
        ⟨[], []⟩).toOption.getD ⟨[], []⟩, []⟩).2
    rfl

end MCPCache
